import Mathlib

/-!
Verification of the Uika dynamic type-registration and marshaling engine
(UE plugin, C++), shallowly embedded in Lean 4.

The definitions below are direct translations of the functions in
`UikaReifyApiImpl.cpp`, `UikaPropertyApiImpl.cpp`, `UikaContainerApiImpl.cpp`,
`UikaLifecycleApiImpl.cpp` and `UikaModule.cpp`. Handles (opaque pointers)
are modelled as allocator-issued natural-number ids wrapped in `Option`
(`none` = null pointer); instance storage is modelled as byte functions or
byte lists; out-parameters become components of the returned tuple, with
`Option` recording whether the callee stored through the pointer.
-/

namespace Uika

/-- EUikaErrorCode from UikaApiTable.h (values 0..10). -/
inductive EUikaErrorCode where
  | Ok
  | ObjectDestroyed
  | InvalidCast
  | PropertyNotFound
  | FunctionNotFound
  | TypeMismatch
  | NullArgument
  | IndexOutOfRange
  | InvalidOperation
  | InternalError
  | BufferTooSmall
  deriving DecidableEq, Repr

/-! ## Marshaling layer: scalar get (UikaPropertyApiImpl.cpp)

`UIKA_CHECK_VALID` only null-checks the container pointer.  An instance is
modelled as its raw byte store: a function from byte offsets to the 32-bit
value readable at that offset (for the i32 accessors the code reads/writes
`*ContainerPtrToValuePtr<int32>(Object)`, i.e. the 4 bytes at
`Object + prop->Offset`). -/

/-- Instance storage: the int32 value readable at each byte offset. -/
structure ObjStore where
  readI32 : Nat → Int

/-- A field descriptor as seen by the scalar marshaling path: its current
byte offset (`GetOffset_ForInternal`, zero until the owning type is linked)
and, for stating the spec's claim, whether the owning type has been
finalized (`CLASS_Constructed` after `FinalizeClassImpl`). The i32 accessors
in the source perform no cast check and never consult the linked state. -/
structure MarshalProp where
  offset : Nat
  linked : Bool

/-- GetI32Impl: null-check the instance handle, then read the int32 at the
descriptor's current offset.  No other check is made. -/
def GetI32Impl (obj : Option ObjStore) (prop : MarshalProp) :
    EUikaErrorCode × Option Int :=
  match obj with
  | none => (EUikaErrorCode.ObjectDestroyed, none)
  | some o => (EUikaErrorCode.Ok, some (o.readI32 prop.offset))

/-- SetI32Impl: null-check the instance handle, then write the int32 at the
descriptor's current offset; returns the updated store. -/
def SetI32Impl (obj : Option ObjStore) (prop : MarshalProp) (v : Int) :
    EUikaErrorCode × Option ObjStore :=
  match obj with
  | none => (EUikaErrorCode.ObjectDestroyed, none)
  | some o =>
      (EUikaErrorCode.Ok,
       some ⟨fun off => if off = prop.offset then v else o.readI32 off⟩)

/-! ## Marshaling layer: string get (GetStringImpl)

The property payload: an `FStrProperty` or `FTextProperty` carries a value
whose UTF-8 encoding we model as a byte list; any other property kind is
`other` (rejected with TypeMismatch). The caller's buffer is a byte list
whose length is the supplied `BufLen`; the out-length pointer is modelled
by a flag (whether it is non-null) and an `Option Nat` result component. -/

inductive StringPropShape where
  | strProp (utf8 : List Nat)
  | textProp (utf8 : List Nat)
  | other
  deriving DecidableEq, Repr

/-- Write `data` into `buf` starting at position `pos`, truncated at the end
of `buf` (the model tracks only the destination region of `BufLen` bytes). -/
def writeBytes (buf : List Nat) (pos : Nat) (data : List Nat) : List Nat :=
  match data with
  | [] => buf
  | b :: rest => writeBytes (buf.set pos b) (pos + 1) rest

/-- GetStringImpl: null-check; TypeMismatch unless the property is a string
or text property; otherwise report the full UTF-8 length through the
out-length pointer (when non-null) and, when a non-null non-empty buffer is
supplied, copy `min(len, bufLen)` bytes into it.  Always returns Ok. -/
def GetStringImpl (obj : Option Unit) (prop : StringPropShape)
    (buf : Option (List Nat)) (outLenPtr : Bool) :
    EUikaErrorCode × Option (List Nat) × Option Nat :=
  match obj with
  | none => (EUikaErrorCode.ObjectDestroyed, buf, none)
  | some _ =>
    match prop with
    | StringPropShape.other => (EUikaErrorCode.TypeMismatch, buf, none)
    | StringPropShape.strProp v | StringPropShape.textProp v =>
      let len := v.length
      let outLen : Option Nat := if outLenPtr then some len else none
      match buf with
      | none => (EUikaErrorCode.Ok, none, outLen)
      | some b =>
        if b.length > 0 then
          let copyLen := min len b.length
          (EUikaErrorCode.Ok, some (writeBytes b 0 (v.take copyLen)), outLen)
        else
          (EUikaErrorCode.Ok, some b, outLen)

/-! ## Marshaling layer: struct get/set (GetStructImpl / SetStructImpl)

`CopyScriptStruct` copies `Struct->GetStructureSize()` bytes; the `BufSize`
argument of both entry points is accepted but never read. The instance's
struct field bytes live at the descriptor's offset; we model the source
bytes of the field directly. -/

/-- A property handle as seen by the struct accessors: either a struct
property (with the owning struct's size and the current field bytes on the
instance) or some other kind of property. -/
inductive StructPropShape where
  | structProp (structSize : Nat) (fieldBytes : List Nat)
  | other
  deriving DecidableEq, Repr

/-- GetStructImpl: null-check, cast check, then `CopyScriptStruct(OutBuf,
Src)` — a copy of the struct's own size into the caller's buffer.  `bufSize`
is a parameter of the entry point but is never consulted. -/
def GetStructImpl (obj : Option Unit) (prop : StructPropShape)
    (outBuf : List Nat) (bufSize : Nat) : EUikaErrorCode × List Nat :=
  match obj with
  | none => (EUikaErrorCode.ObjectDestroyed, outBuf)
  | some _ =>
    match prop with
    | StructPropShape.other => (EUikaErrorCode.TypeMismatch, outBuf)
    | StructPropShape.structProp _ fieldBytes =>
        (EUikaErrorCode.Ok, writeBytes outBuf 0 fieldBytes)

/-- SetStructImpl: null-check, cast check, then `CopyScriptStruct(DstPtr,
InBuf)` — the first `structSize` bytes of the caller's buffer become the
field's bytes.  `bufSize` is a parameter but is never consulted. -/
def SetStructImpl (obj : Option Unit) (prop : StructPropShape)
    (inBuf : List Nat) (bufSize : Nat) : EUikaErrorCode × StructPropShape :=
  match obj with
  | none => (EUikaErrorCode.ObjectDestroyed, prop)
  | some _ =>
    match prop with
    | StructPropShape.other => (EUikaErrorCode.TypeMismatch, prop)
    | StructPropShape.structProp sz _ =>
        (EUikaErrorCode.Ok, StructPropShape.structProp sz (inBuf.take sz))

/-! ## Marshaling layer: indexed fixed-array access (GetPropertyAtImpl)

A fixed array property (`ArrayDim > 1`): the current values of its
`arrayDim` slots, each `elemSize` (`GetElementSize`) bytes. The destination
buffer is the byte region of the supplied `BufSize`. -/

structure FixedArrayProp where
  arrayDim : Nat
  elemSize : Nat
  /-- Bytes of each element slot on the instance, in index order. -/
  elems : List (List Nat)
  deriving DecidableEq, Repr

/-- GetPropertyAtImpl: null instance → ObjectDestroyed; null property →
PropertyNotFound; index ≥ ArrayDim → IndexOutOfRange; buffer smaller than
the element size → InternalError (no write, no size report); otherwise
`CopySingleValue` of the indexed element into the buffer. -/
def GetPropertyAtImpl (obj : Option Unit) (prop : Option FixedArrayProp)
    (index : Nat) (outBuf : List Nat) : EUikaErrorCode × List Nat :=
  match obj with
  | none => (EUikaErrorCode.ObjectDestroyed, outBuf)
  | some _ =>
    match prop with
    | none => (EUikaErrorCode.PropertyNotFound, outBuf)
    | some p =>
      if index ≥ p.arrayDim then (EUikaErrorCode.IndexOutOfRange, outBuf)
      else if outBuf.length < p.elemSize then (EUikaErrorCode.InternalError, outBuf)
      else (EUikaErrorCode.Ok, writeBytes outBuf 0 ((p.elems.getD index []).take p.elemSize))

/-! ## Container API: bulk array copy-all (UikaContainerApiImpl.cpp)

The inner property's kind, as distinguished by the `CastField` dispatch in
`ReadElement` / `IsRawCopyableElement`: string, localized text, object
reference, struct, or anything else (primitives, enums, FName). -/

inductive ElemKind where
  | strKind    -- FStrProperty
  | textKind   -- FTextProperty
  | objKind    -- FObjectPropertyBase
  | structKind -- FStructProperty
  | rawKind    -- everything else: numerics, bool, enum, FName
  deriving DecidableEq, Repr

/-- IsRawCopyableElement: the inner property is none of FStrProperty,
FTextProperty, FObjectPropertyBase, FStructProperty. -/
def IsRawCopyableElement (k : ElemKind) : Bool :=
  !(k = ElemKind.strKind) && !(k = ElemKind.textKind)
    && !(k = ElemKind.objKind) && !(k = ElemKind.structKind)

/-- Little-endian bytes of a uint32 value (the 4-byte length prefix). -/
def u32bytes (n : Nat) : List Nat :=
  [n % 256, n / 256 % 256, n / 256 ^ 2 % 256, n / 256 ^ 3 % 256]

/-- uint32 subtraction with wrap-around, as the C++ `a - b` on `uint32`. -/
def u32sub (a b : Nat) : Nat := (a + 2 ^ 32 - b) % 2 ^ 32

/-- ReadElement: write one element into the buffer at `pos` given
`bufSize` remaining bytes there, returning `OutWritten` and the updated
buffer.  Strings and texts are framed `[u32 len][utf8]` (the payload copy
truncated to `bufSize - 4` computed in uint32 arithmetic); object
references are the 8 pointer bytes; structs are `CopyScriptStruct` of the
struct's whole size; everything else is a raw memcpy of
`min(GetSize, bufSize)` bytes with `OutWritten = GetSize`. -/
def ReadElement (kind : ElemKind) (innerSize : Nat) (elem : List Nat)
    (buf : List Nat) (pos : Nat) (bufSize : Nat) : Nat × List Nat :=
  match kind with
  | ElemKind.strKind | ElemKind.textKind =>
      let len := elem.length
      let buf1 := writeBytes buf pos (u32bytes len)
      let copyLen := min len (u32sub bufSize 4)
      (4 + copyLen, writeBytes buf1 (pos + 4) (elem.take copyLen))
  | ElemKind.objKind => (8, writeBytes buf pos elem)
  | ElemKind.structKind => (elem.length, writeBytes buf pos elem)
  | ElemKind.rawKind =>
      (innerSize, writeBytes buf pos (elem.take (min innerSize bufSize)))

/-- A TArray-typed field: the inner element property's kind and size, and
the current elements' payload bytes. -/
structure ArrayPropShape where
  innerKind : ElemKind
  innerSize : Nat
  elems : List (List Nat)
  deriving DecidableEq, Repr

/-- The framed (`[u32 written][data]` per element) loop of
ArrayCopyAllImpl.  `i` is the loop index, `offset` the write cursor,
`outTW` the current value of the `OutTotalWritten` out-parameter (`none` =
not yet stored to).  On overflow the code returns BufferTooSmall with an
extrapolated size estimate (left untouched when nothing was written yet). -/
def copyAllFramedLoop (kind : ElemKind) (innerSize : Nat) (count : Nat)
    (elems : List (List Nat)) (i : Nat) (offset : Nat)
    (buf : List Nat) (bufSize : Nat) (outTW : Option Nat) :
    EUikaErrorCode × List Nat × Option Nat :=
  match elems with
  | [] => (EUikaErrorCode.Ok, buf, some offset)
  | e :: rest =>
    if offset + 4 > bufSize then
      (EUikaErrorCode.BufferTooSmall, buf,
        if i > 0 then some (offset / i * count + 4 * count) else outTW)
    else
      let remaining := bufSize - offset - 4
      let res := ReadElement kind innerSize e buf (offset + 4) remaining
      let elemWritten := res.1
      let buf1 := res.2
      if offset + 4 + elemWritten > bufSize then
        (EUikaErrorCode.BufferTooSmall, buf1,
          if i > 0 then some ((offset + 4 + elemWritten) / (i + 1) * count)
          else some ((4 + elemWritten) * count))
      else
        copyAllFramedLoop kind innerSize count rest (i + 1)
          (offset + 4 + elemWritten)
          (writeBytes buf1 offset (u32bytes elemWritten)) bufSize outTW

/-- ArrayCopyAllImpl: null instance → ObjectDestroyed; non-array property →
TypeMismatch.  Otherwise `*OutCount = Count`, then: raw-copyable inner kind
→ single memcpy of `TotalSize = Count * ElemSize` bytes — a `uint32`
product that wraps mod 2^32 — returning BufferTooSmall with `TotalSize` as
the required size when the buffer is smaller (buffer untouched), and on
success `*OutCount = -Count` as the raw-mode sentinel (the contiguous
element storage copied from `GetRawPtr(0)` is the concatenation of the
elements' bytes, `ElemSize` per element); any other inner kind → the
framed per-element loop.  Result components: error code, destination
buffer, `OutTotalWritten`, `OutCount` (as a signed value; `none` = the
out-parameter was never stored to). -/
def ArrayCopyAllImpl (obj : Option Unit) (prop : Option ArrayPropShape)
    (outBuf : List Nat) :
    EUikaErrorCode × List Nat × Option Nat × Option Int :=
  match obj with
  | none => (EUikaErrorCode.ObjectDestroyed, outBuf, none, none)
  | some _ =>
    match prop with
    | none => (EUikaErrorCode.TypeMismatch, outBuf, none, none)
    | some p =>
      let count := p.elems.length
      let bufSize := outBuf.length
      if IsRawCopyableElement p.innerKind then
        let totalSize := count * p.innerSize % 2 ^ 32
        if totalSize > bufSize then
          (EUikaErrorCode.BufferTooSmall, outBuf, some totalSize, some count)
        else
          (EUikaErrorCode.Ok, writeBytes outBuf 0 p.elems.flatten,
            some totalSize, some (-(count : Int)))
      else
        let res := copyAllFramedLoop p.innerKind p.innerSize count p.elems 0 0
          outBuf bufSize none
        (res.1, res.2.1, res.2.2, some (count : Int))

/-! ## Lifecycle bridge and hot-reload orchestrator
(UikaLifecycleApiImpl.cpp, UikaModule.cpp, UikaReifyApiImpl.cpp)

Cross-boundary callback invocations and DLL operations are recorded as an
event trace.  Objects are identified by their pointer, modelled as `Nat`
(a null handle is `Option.none`). -/

/-- Which members of the FUikaRustCallbacks table returned by `uika_init`
are non-null. -/
structure RustCallbacksShape where
  hasDropHook : Bool              -- drop_rust_instance
  hasConstructHook : Bool         -- construct_rust_instance
  hasOnShutdown : Bool            -- on_shutdown
  hasNotifyPinnedDestroyed : Bool -- notify_pinned_destroyed
  deriving DecidableEq, Repr

/-- Observable cross-boundary events of the lifecycle / hot-reload paths. -/
inductive Event where
  | dropInstance (inst : Nat) (typeId : Nat)
  | constructInstance (inst : Nat) (typeId : Nat) (isCDO : Bool)
  | notifyPinnedDestroyed (inst : Nat)
  | onShutdown
  | freeDll
  | copyDll
  | loadDll
  deriving DecidableEq, Repr

/-- RegisterPinnedImpl: null handle is ignored; otherwise the pointer is
added to the `GPinnedObjects` TSet (no duplicates). -/
def RegisterPinnedImpl (obj : Option Nat) (pinned : List Nat) : List Nat :=
  match obj with
  | none => pinned
  | some o => if o ∈ pinned then pinned else o :: pinned

/-- UnregisterPinnedImpl: null handle is ignored; otherwise the pointer is
removed from the set.  It fires no callback. -/
def UnregisterPinnedImpl (obj : Option Nat) (pinned : List Nat) :
    List Event × List Nat :=
  match obj with
  | none => ([], pinned)
  | some o => ([], pinned.filter (fun x => x ≠ o))

/-- FUikaPinnedDeleteListener::NotifyUObjectDeleted: non-members are
ignored; for a member, notify_pinned_destroyed is invoked (when the
callback table and hook are present) and the entry is removed. -/
def PinnedNotifyUObjectDeleted (callbacks : Option RustCallbacksShape)
    (objPtr : Nat) (pinned : List Nat) : List Event × List Nat :=
  if objPtr ∈ pinned then
    ((match callbacks with
      | some c =>
          if c.hasNotifyPinnedDestroyed then [Event.notifyPinnedDestroyed objPtr]
          else []
      | none => []),
     pinned.filter (fun x => x ≠ objPtr))
  else ([], pinned)

/-- A live UObject as seen by `FThreadSafeObjectIterator`: its pointer, its
RF_ClassDefaultObject flag, and — when its class is a `UUikaReifiedClass` —
that class's RustTypeId. -/
structure InstanceShape where
  id : Nat
  isCDO : Bool
  reifiedTypeId : Option Nat
  deriving DecidableEq, Repr

/-- UikaReifyForEachReifiedInstance: walk all live objects, skipping CDOs
and instances of non-reified classes; the callback receives the rest. -/
def forEachReifiedInstance (insts : List InstanceShape) : List InstanceShape :=
  insts.filter (fun i => !i.isCDO && i.reifiedTypeId.isSome)

/-- FUikaModule state relevant to ReloadRustDll, plus the environment facts
(file existence, copy/load success, what the new module's `uika_init`
returns) that decide its branches. -/
structure ModuleState where
  dllLoaded : Bool                      -- DllHandle != nullptr
  callbacks : Option RustCallbacksShape -- RustCallbacks (none = nullptr)
  dllSourcePathSet : Bool               -- !DllSourcePath.IsEmpty()
  sourceDllExists : Bool                -- FPaths::FileExists(DllSourcePath)
  copySucceeds : Bool                   -- IFileManager::Copy returns 0
  newDllLoads : Bool                    -- GetDllHandle + uika_init both succeed
  newCallbacks : RustCallbacksShape     -- table returned by the new uika_init
  instances : List InstanceShape        -- live objects (unchanged by reload)
  deriving DecidableEq, Repr

/-- FUikaModule::TeardownReifiedInstances: when the DLL is loaded and the
callback table has a drop hook, invoke drop_rust_instance for every live
non-CDO instance of a reified class (handle + RustTypeId).  Otherwise
nothing happens. -/
def TeardownReifiedInstances (st : ModuleState) : List Event :=
  if st.dllLoaded &&
      (match st.callbacks with
       | some c => c.hasDropHook
       | none => false) then
    (forEachReifiedInstance st.instances).map
      (fun i => Event.dropInstance i.id (i.reifiedTypeId.getD 0))
  else []

/-- FUikaModule::ReconstructReifiedInstances: when the callback table has a
construct hook, invoke construct_rust_instance for every live non-CDO
instance of a reified class, passing `Obj->HasAnyFlags(RF_ClassDefaultObject)`
as the is-CDO flag. -/
def ReconstructReifiedInstances (st : ModuleState) : List Event :=
  if (match st.callbacks with
      | some c => c.hasConstructHook
      | none => false) then
    (forEachReifiedInstance st.instances).map
      (fun i => Event.constructInstance i.id (i.reifiedTypeId.getD 0) i.isCDO)
  else []

/-- FUikaModule::UnloadRustDll: if a DLL is loaded, invoke the module's
on_shutdown hook when present, then release the binary (FreeDllHandle) and
clear the handle and callback table.  (The delete-listener unregistration
and the optional `uika_shutdown` export call have no cross-boundary-trace
effect modelled here.) -/
def UnloadRustDll (st : ModuleState) : List Event × ModuleState :=
  if st.dllLoaded then
    ((match st.callbacks with
      | some c => if c.hasOnShutdown then [Event.onShutdown] else []
      | none => []) ++ [Event.freeDll],
     { st with dllLoaded := false, callbacks := none })
  else ([], st)

/-- FUikaModule::LoadRustDll (success case): the DLL handle is stored and
the callback table returned by the new module's `uika_init` becomes the
current one. -/
def AfterLoadState (st1 : ModuleState) (newCb : RustCallbacksShape) : ModuleState :=
  { st1 with dllLoaded := true, callbacks := some newCb }

/-- FUikaModule::ReloadRustDll: early-out when the DLL source path was
never resolved; else Teardown, unload the old DLL, then stage (copy) and
load the new binary, and finally Reconstruct.  Any stage failure (source
missing, copy failure, load/init failure) aborts before Reconstruct. -/
def ReloadRustDll (st : ModuleState) : List Event × ModuleState :=
  if !st.dllSourcePathSet then ([], st)
  else
    let tearEvs := TeardownReifiedInstances st
    let unload := UnloadRustDll st
    let st1 := unload.2
    if !st.sourceDllExists then (tearEvs ++ unload.1, st1)
    else if !st.copySucceeds then (tearEvs ++ unload.1, st1)
    else if st.newDllLoads then
      let st2 := AfterLoadState st1 st.newCallbacks
      (tearEvs ++ unload.1 ++ [Event.copyDll, Event.loadDll]
        ++ ReconstructReifiedInstances st2, st2)
    else (tearEvs ++ unload.1 ++ [Event.copyDll], st1)

/-! ## Type registry (UikaReifyApiImpl.cpp)

Descriptors (UClass / FProperty / UFunction objects) are identified by
allocator-issued ids, standing for their stable addresses: equal ids mean
pointer identity.  A handle is `Option Nat` (`none` = null).  The shared
Uika package's contents are the `classes` list; `FindObject` by name is a
name lookup over it (the stub `UBlueprint` created alongside a class lives
under a different, typed lookup and can never collide, so it is not
modelled). -/

/-- EUikaReifyPropType from UikaApiTable.h. -/
inductive EUikaReifyPropType where
  | boolTy | int8 | int16 | int32 | int64
  | uint8T | uint16T | uint32T | uint64T
  | floatTy | doubleTy
  | stringTy | nameTy | textTy
  | objectTy | classTy | structTy | enumTy
  deriving DecidableEq, Repr

/-- FUikaReifyPropExtra: the optional auxiliary handles. -/
structure FUikaReifyPropExtra where
  class_handle : Option Nat
  meta_class_handle : Option Nat
  struct_handle : Option Nat
  enum_handle : Option Nat
  deriving DecidableEq, Repr

/-- An FProperty descriptor: its owner (`GetOwnerClass` / owning function),
name, element kind, and flags. -/
structure PropDesc where
  owner : Nat
  name : String
  propType : EUikaReifyPropType
  propFlags : Nat
  deriving DecidableEq, Repr

/-- CPF_Parm, always OR-ed into a parameter's flags. -/
def CPF_Parm : Nat := 128

/-- CreatePropertyByType: the switch in UikaReifyApiImpl.cpp.  A Struct
property with no backing struct handle and an Enum property with no enum
handle are rejected (`nullptr`); every other kind constructs (Object/Class
fall back to `UObject::StaticClass()` when the extra block is absent). -/
def CreatePropertyByType (owner : Nat) (propName : String)
    (propType : EUikaReifyPropType) (extra : Option FUikaReifyPropExtra) :
    Option PropDesc :=
  match propType with
  | EUikaReifyPropType.structTy =>
    match extra with
    | some e =>
      match e.struct_handle with
      | some _ => some ⟨owner, propName, propType, 0⟩
      | none => none
    | none => none
  | EUikaReifyPropType.enumTy =>
    match extra with
    | some e =>
      match e.enum_handle with
      | some _ => some ⟨owner, propName, propType, 0⟩
      | none => none
    | none => none
  | _ => some ⟨owner, propName, propType, 0⟩

/-- A UUikaReifiedClass descriptor.  `childPropIds` is the ChildProperties
field chain (AddCppProperty prepends); `propertyLink` is the linked
property chain, empty until StaticLink builds it from ChildProperties
during finalization; `functionIds` is the Children chain / function map
(new functions are prepended and registered immediately); `constructed`
is the CLASS_Constructed flag checked by FinalizeClassImpl. -/
structure ClassDesc where
  id : Nat
  name : String
  parentId : Nat
  rustTypeId : Nat
  childPropIds : List Nat
  propertyLink : List Nat
  functionIds : List Nat
  constructed : Bool
  deriving DecidableEq, Repr

/-- A UUikaReifiedFunction descriptor: owner class, name, external callback
id, flags, and the ChildProperties parameter chain in linked-list order. -/
structure FuncDesc where
  id : Nat
  owner : Nat
  name : String
  callbackId : Nat
  funcFlags : Nat
  childProperties : List PropDesc
  deriving DecidableEq, Repr

/-- The registry: an address allocator and the descriptor stores. -/
structure Registry where
  nextId : Nat
  classes : List ClassDesc
  props : List (Nat × PropDesc)
  funcs : List FuncDesc
  deriving DecidableEq, Repr

/-- Dereference a class handle (valid handles only). -/
def findClass (r : Registry) (cid : Nat) : Option ClassDesc :=
  r.classes.find? (fun c => c.id == cid)

/-- `FindObject<UUikaReifiedClass>(UikaPackage, *ClassName)`. -/
def findClassByName (r : Registry) (n : String) : Option ClassDesc :=
  r.classes.find? (fun c => c.name == n)

/-- Dereference a property handle. -/
def findProp (r : Registry) (pid : Nat) : Option PropDesc :=
  (r.props.find? (fun p => p.1 == pid)).map (fun p => p.2)

/-- Dereference a function handle. -/
def findFunc (r : Registry) (fid : Nat) : Option FuncDesc :=
  r.funcs.find? (fun f => f.id == fid)

/-- Mutate the class descriptor with the given id in place. -/
def updateClass (r : Registry) (cid : Nat) (f : ClassDesc → ClassDesc) :
    Registry :=
  { r with classes := r.classes.map (fun c => if c.id == cid then f c else c) }

/-- Mutate the function descriptor with the given id in place. -/
def updateFunc (r : Registry) (fid : Nat) (f : FuncDesc → FuncDesc) :
    Registry :=
  { r with funcs := r.funcs.map (fun g => if g.id == fid then f g else g) }

/-- One step of the `FindFunctionByName` scan: does this function handle
name-match? -/
def funcNameMatches (r : Registry) (n : String) (fid : Nat) : Bool :=
  match findFunc r fid with
  | some f => f.name == n
  | none => false

/-- One step of the AddPropertyImpl duplicate scan over the linked chain:
is this a property of the given owner with the given name? -/
def propOwnedNameMatches (r : Registry) (cid : Nat) (n : String) (pid : Nat) : Bool :=
  match findProp r pid with
  | some p => p.owner == cid && p.name == n
  | none => false

/-- CreateClassImpl: null parent → null handle.  If a class of this name
already exists in the Uika package, update its RustTypeId and return it
(hot-reload reuse).  Otherwise allocate a fresh descriptor under the
parent, with empty chains and CLASS_Constructed clear. -/
def CreateClassImpl (r : Registry) (name : String) (parent : Option Nat)
    (rustTypeId : Nat) : Option Nat × Registry :=
  match parent with
  | none => (none, r)
  | some parentId =>
    match findClassByName r name with
    | some existing =>
        (some existing.id,
         updateClass r existing.id (fun c => { c with rustTypeId := rustTypeId }))
    | none =>
        (some r.nextId,
         { r with
             nextId := r.nextId + 1,
             classes := r.classes ++
               [{ id := r.nextId, name := name, parentId := parentId,
                  rustTypeId := rustTypeId, childPropIds := [],
                  propertyLink := [], functionIds := [],
                  constructed := false }] })

/-- AddPropertyImpl: null class → null handle.  The hot-reload duplicate
scan walks the class's *linked* property chain (`PropertyLink`) looking for
a property owned by this class with this name and returns it when found.
Otherwise a new property is constructed, given the caller's flags, and
prepended to ChildProperties by `AddCppProperty`. -/
def AddPropertyImpl (r : Registry) (cls : Option Nat) (name : String)
    (propType : EUikaReifyPropType) (propFlags : Nat)
    (extra : Option FUikaReifyPropExtra) : Option Nat × Registry :=
  match cls with
  | none => (none, r)
  | some cid =>
    match findClass r cid with
    | none => (none, r)
    | some c =>
      match c.propertyLink.find? (propOwnedNameMatches r cid name) with
      | some pid => (some pid, r)
      | none =>
        match CreatePropertyByType cid name propType extra with
        | none => (none, r)
        | some p =>
          let pid := r.nextId
          let p := { p with propFlags := Nat.lor p.propFlags propFlags }
          (some pid,
           updateClass
             { r with nextId := r.nextId + 1, props := r.props ++ [(pid, p)] }
             cid (fun c => { c with childPropIds := pid :: c.childPropIds }))

/-- AddFunctionImpl: null class → null handle.  `FindFunctionByName` is
served by the class's function map, which AddFunctionImpl fills at creation
time, so an existing reified function of this name is found regardless of
finalization; its CallbackId is updated and it is returned.  Otherwise a
new function is created, wired to the shared thunk, prepended to the
Children chain and registered in the function map. -/
def AddFunctionImpl (r : Registry) (cls : Option Nat) (name : String)
    (callbackId : Nat) (funcFlags : Nat) : Option Nat × Registry :=
  match cls with
  | none => (none, r)
  | some cid =>
    match findClass r cid with
    | none => (none, r)
    | some c =>
      match c.functionIds.find? (funcNameMatches r name) with
      | some fid =>
          (some fid, updateFunc r fid (fun f => { f with callbackId := callbackId }))
      | none =>
        let fid := r.nextId
        (some fid,
         updateClass
           { r with
               nextId := r.nextId + 1,
               funcs := r.funcs ++
                 [{ id := fid, owner := cid, name := name,
                    callbackId := callbackId, funcFlags := funcFlags,
                    childProperties := [] }] }
           cid (fun c => { c with functionIds := fid :: c.functionIds }))

/-- AddFunctionParamImpl: null / non-reified function → NullArgument.  The
duplicate scan walks the function's ChildProperties chain; a present name
is a no-op success.  Otherwise the parameter is constructed (InternalError
on construction failure), CPF_Parm is OR-ed into its flags, and it is
appended at the END of ChildProperties (never prepended), preserving
declaration order. -/
def AddFunctionParamImpl (r : Registry) (func : Option Nat) (name : String)
    (propType : EUikaReifyPropType) (paramFlags : Nat)
    (extra : Option FUikaReifyPropExtra) : EUikaErrorCode × Registry :=
  match func with
  | none => (EUikaErrorCode.NullArgument, r)
  | some fid =>
    match findFunc r fid with
    | none => (EUikaErrorCode.NullArgument, r)
    | some f =>
      if f.childProperties.any (fun p => p.name == name) then
        (EUikaErrorCode.Ok, r)
      else
        match CreatePropertyByType fid name propType extra with
        | none => (EUikaErrorCode.InternalError, r)
        | some p =>
          let p := { p with propFlags := Nat.lor paramFlags CPF_Parm }
          (EUikaErrorCode.Ok,
           updateFunc r fid (fun g =>
             { g with childProperties := g.childProperties ++ [p] }))

/-- FinalizeClassImpl: null / non-reified class → NullArgument.  An already
finalized class (CLASS_Constructed) is skipped with success.  Otherwise
Bind/StaticLink run: the linked property chain is built from the
ChildProperties chain and the class is marked constructed.  (Offset
computation, the GC token stream and CDO creation have no effect on the
registry shape modelled here.) -/
def FinalizeClassImpl (r : Registry) (cls : Option Nat) :
    EUikaErrorCode × Registry :=
  match cls with
  | none => (EUikaErrorCode.NullArgument, r)
  | some cid =>
    match findClass r cid with
    | none => (EUikaErrorCode.NullArgument, r)
    | some c =>
      if c.constructed then (EUikaErrorCode.Ok, r)
      else
        (EUikaErrorCode.Ok,
         updateClass r cid (fun c =>
           { c with propertyLink := c.childPropIds, constructed := true }))

/-- Freshness of the allocator: every issued descriptor id is below
`nextId` (addresses handed out so far are pairwise distinct from the next
allocation).  Holds for every registry reachable from the empty one. -/
def FreshIds (r : Registry) : Prop :=
  (∀ c ∈ r.classes, c.id < r.nextId) ∧
  (∀ p ∈ r.props, p.1 < r.nextId) ∧
  (∀ f ∈ r.funcs, f.id < r.nextId)

/-- Optionally finalize a class between two registration calls (used to
state idempotence "regardless of whether the owning type has been
finalized between the two calls"). -/
def maybeFinalize (fin : Bool) (r : Registry) (cls : Option Nat) : Registry :=
  if fin then (FinalizeClassImpl r cls).2 else r

/-! Named forms of the in-place descriptor updates performed by the
registry operations (used to state and prove their properties). -/

/-- The hot-reload tag update CreateClassImpl applies to an existing class. -/
def tagUpdate (tid : Nat) (c : ClassDesc) : ClassDesc := { c with rustTypeId := tid }

/-- StaticLink: build the linked chain and set CLASS_Constructed. -/
def linkUpdate (c : ClassDesc) : ClassDesc :=
  { c with propertyLink := c.childPropIds, constructed := true }

/-- Prepend a new function to a class's Children chain / function map. -/
def addFuncId (fid : Nat) (c : ClassDesc) : ClassDesc :=
  { c with functionIds := fid :: c.functionIds }

/-- AddCppProperty: prepend a new property to ChildProperties. -/
def addChildProp (pid : Nat) (c : ClassDesc) : ClassDesc :=
  { c with childPropIds := pid :: c.childPropIds }

/-- The hot-reload callback-id update AddFunctionImpl applies. -/
def setCallback (cb : Nat) (f : FuncDesc) : FuncDesc := { f with callbackId := cb }

/-- Apply `g` to the class with the given id, leave others unchanged. -/
def idUpdate (cid : Nat) (g : ClassDesc → ClassDesc) (c : ClassDesc) : ClassDesc :=
  if c.id == cid then g c else c

/-- Apply `g` to the function with the given id, leave others unchanged. -/
def idUpdateF (fid : Nat) (g : FuncDesc → FuncDesc) (f : FuncDesc) : FuncDesc :=
  if f.id == fid then g f else f

/-- The descriptor a fresh CreateClassImpl allocates. -/
def newClassDesc (nid : Nat) (nm : String) (pid tid : Nat) : ClassDesc :=
  { id := nid, name := nm, parentId := pid, rustTypeId := tid,
    childPropIds := [], propertyLink := [], functionIds := [],
    constructed := false }

/-- The descriptor a fresh AddFunctionImpl allocates. -/
def newFuncDesc (fid cid : Nat) (nm : String) (cb fl : Nat) : FuncDesc :=
  { id := fid, owner := cid, name := nm, callbackId := cb, funcFlags := fl,
    childProperties := [] }

/-- Run a sequence of AddFunctionParamImpl calls against one function,
collecting the returned error codes. -/
def runParams (r : Registry) (fid : Nat) :
    List (String × EUikaReifyPropType × Nat × Option FUikaReifyPropExtra) →
    List EUikaErrorCode × Registry
  | [] => ([], r)
  | s :: rest =>
    let step := AddFunctionParamImpl r (some fid) s.1 s.2.1 s.2.2.1 s.2.2.2
    let restRes := runParams step.2 fid rest
    (step.1 :: restRes.1, restRes.2)

/-! ## Concrete example states used by counterexamples and witnesses -/

/-- An instance whose int32 read yields 7 at every offset. -/
def exStore : ObjStore := ⟨fun _ => 7⟩

/-- A field descriptor whose owning type has not been finalized. -/
def exUnlinkedProp : MarshalProp := ⟨0, false⟩

/-- A 2-slot fixed array of 4-byte elements. -/
def exFixedProp : FixedArrayProp := ⟨2, 4, [[1, 2, 3, 4], [5, 6, 7, 8]]⟩

/-- An empty TArray of a primitively-copyable (int32) element kind. -/
def exEmptyI32Array : ArrayPropShape := ⟨ElemKind.rawKind, 4, []⟩

/-- A non-empty TArray of a primitively-copyable element kind. -/
def exI32Array : ArrayPropShape := ⟨ElemKind.rawKind, 4, [[1, 0, 0, 0]]⟩

/-- An 8-byte struct-valued field. -/
def exStructProp : StructPropShape :=
  StructPropShape.structProp 8 [1, 2, 3, 4, 5, 6, 7, 8]

/-- A callback table with every hook present. -/
def exCallbacks : RustCallbacksShape := ⟨true, true, true, true⟩

/-- Module state whose only live reified-class instance is the class's
default object (CDO). -/
def exReloadStateCDO : ModuleState :=
  { dllLoaded := true, callbacks := some exCallbacks,
    dllSourcePathSet := true, sourceDllExists := true, copySucceeds := true,
    newDllLoads := true, newCallbacks := exCallbacks,
    instances := [⟨0, true, some 5⟩] }

/-- Module state with one ordinary live reified-class instance. -/
def exReloadState : ModuleState :=
  { dllLoaded := true, callbacks := some exCallbacks,
    dllSourcePathSet := true, sourceDllExists := true, copySucceeds := true,
    newDllLoads := true, newCallbacks := exCallbacks,
    instances := [⟨1, false, some 7⟩] }

/-- The empty registry (first id 1; 0 stands for a host-native class such
as the chosen parent, which is never in the Uika package). -/
def exReg0 : Registry := ⟨1, [], [], []⟩

/-- After `create_class("Foo", parent, 42)`: the class got id 1. -/
def exReg1 : Registry := (CreateClassImpl exReg0 "Foo" (some 0) 42).2

/-- After a first `add_property(Foo, "Health", Int32)` with the class not
yet finalized: the property got id 2. -/
def exReg2 : Registry :=
  (AddPropertyImpl exReg1 (some 1) "Health" EUikaReifyPropType.int32 0 none).2

/-- A parameterless function descriptor with id 1. -/
def exF : FuncDesc :=
  { id := 1, owner := 0, name := "Foo", callbackId := 9,
    funcFlags := 0, childProperties := [] }

/-- A registry holding only `exF`. -/
def exRegF : Registry := ⟨2, [], [], [exF]⟩

/-- The same function after one parameter "A" was added. -/
def exF2 : FuncDesc :=
  { id := 1, owner := 0, name := "Foo", callbackId := 9, funcFlags := 0,
    childProperties := [⟨1, "A", EUikaReifyPropType.int32, 0⟩] }

/-- A registry holding only `exF2`. -/
def exRegF2 : Registry := ⟨2, [], [], [exF2]⟩

/-- Two parameter declarations with distinct names. -/
def exSpecs : List (String × EUikaReifyPropType × Nat × Option FUikaReifyPropExtra) :=
  [("A", EUikaReifyPropType.int32, 0, none),
   ("B", EUikaReifyPropType.boolTy, 0, none)]

/-! ## Helper lemmas -/

theorem writeBytes_length (data : List Nat) :
    ∀ (buf : List Nat) (pos : Nat), (writeBytes buf pos data).length = buf.length := by
  induction data with
  | nil => intro buf pos; rfl
  | cons b rest ih =>
      intro buf pos
      simp only [writeBytes, ih, List.length_set]

theorem writeBytes_spec (data : List Nat) :
    ∀ (buf : List Nat) (pos : Nat), pos + data.length ≤ buf.length →
      writeBytes buf pos data =
        buf.take pos ++ data ++ buf.drop (pos + data.length) := by
  induction data with
  | nil =>
      intro buf pos h
      simp only [writeBytes, List.length_nil, Nat.add_zero, List.append_nil]
      exact (List.take_append_drop pos buf).symm
  | cons b rest ih =>
      intro buf pos h
      have hpos : pos < buf.length := by
        have := h
        simp only [List.length_cons] at this
        omega
      have hlen : pos + 1 + rest.length ≤ (buf.set pos b).length := by
        simp only [List.length_set]
        simp only [List.length_cons] at h
        omega
      simp only [writeBytes]
      rw [ih (buf.set pos b) (pos + 1) hlen]
      rw [List.set_eq_take_append_cons_drop, if_pos hpos]
      have htk : (buf.take pos ++ b :: buf.drop (pos + 1)).take (pos + 1)
          = buf.take pos ++ [b] := by
        rw [List.take_append_eq_append_take]
        have hl : (buf.take pos).length = pos := List.length_take_of_le (Nat.le_of_lt hpos)
        rw [List.take_of_length_le (by omega), hl]
        have : pos + 1 - pos = 1 := by omega
        rw [this]
        rfl
      have hdr : (buf.take pos ++ b :: buf.drop (pos + 1)).drop (pos + 1 + rest.length)
          = buf.drop (pos + (rest.length + 1)) := by
        rw [List.drop_append_eq_append_drop]
        have hl : (buf.take pos).length = pos := List.length_take_of_le (Nat.le_of_lt hpos)
        rw [List.drop_of_length_le (by omega), hl]
        have h1 : pos + 1 + rest.length - pos = rest.length + 1 := by omega
        rw [h1]
        simp only [List.nil_append, List.drop_succ_cons, List.drop_drop]
        congr 1
        omega
      rw [htk, hdr]
      simp only [List.append_assoc, List.singleton_append, List.cons_append,
        List.length_cons, List.nil_append]

/-! ## C3: marshaling before finalize -/

/-- C3 counterexample: with a field descriptor whose owning type is NOT
finalized (`linked = false`), a marshaling get returns Ok and the value
read through the descriptor's current offset — not InvalidOperation as the
claim states. -/
theorem c3_get_before_finalize_counterexample :
    exUnlinkedProp.linked = false ∧
    GetI32Impl (some exStore) exUnlinkedProp = (EUikaErrorCode.Ok, some 7) ∧
    EUikaErrorCode.Ok ≠ EUikaErrorCode.InvalidOperation :=
  ⟨rfl, rfl, by decide⟩

/-- C3 amended: a marshaling get/set through a field descriptor checks only
that the instance handle is non-null (null → ObjectDestroyed); whether or
not the owning type has been finalized, the call succeeds with Ok and reads
(or writes) through the descriptor's current offset, and InvalidOperation
is never returned. -/
theorem c3_get_checks_only_null :
    ∀ (o : ObjStore) (p : MarshalProp) (v : Int),
      GetI32Impl (some o) p = (EUikaErrorCode.Ok, some (o.readI32 p.offset)) ∧
      GetI32Impl none p = (EUikaErrorCode.ObjectDestroyed, none) ∧
      (∀ obj, (GetI32Impl obj p).1 ≠ EUikaErrorCode.InvalidOperation) ∧
      (∀ obj, (SetI32Impl obj p v).1 ≠ EUikaErrorCode.InvalidOperation) := by
  intro o p v
  refine ⟨rfl, rfl, ?_, ?_⟩
  · intro obj
    cases obj <;> simp [GetI32Impl]
  · intro obj
    cases obj <;> simp [SetI32Impl]

/-- C3 amended, witness. -/
theorem c3_get_checks_only_null_witness :
    GetI32Impl (some exStore) exUnlinkedProp
      = (EUikaErrorCode.Ok, some (exStore.readI32 exUnlinkedProp.offset)) ∧
    GetI32Impl none exUnlinkedProp = (EUikaErrorCode.ObjectDestroyed, none) ∧
    (GetI32Impl (some exStore) exUnlinkedProp).1 ≠ EUikaErrorCode.InvalidOperation ∧
    (SetI32Impl (some exStore) exUnlinkedProp 5).1 ≠ EUikaErrorCode.InvalidOperation :=
  ⟨(c3_get_checks_only_null exStore exUnlinkedProp 5).1,
   (c3_get_checks_only_null exStore exUnlinkedProp 5).2.1,
   (c3_get_checks_only_null exStore exUnlinkedProp 5).2.2.1 (some exStore),
   (c3_get_checks_only_null exStore exUnlinkedProp 5).2.2.2 (some exStore)⟩

/-! ## C4: too-small destination buffers -/

/-- A raw-mode bulk copy whose uint32 size product wraps to zero succeeds
regardless of the destination buffer's size. -/
theorem arrayCopyAll_raw_wrap_zero (p : ArrayPropShape)
    (hraw : IsRawCopyableElement p.innerKind = true)
    (hmod : p.elems.length * p.innerSize % 2 ^ 32 = 0) (buf : List Nat) :
    (ArrayCopyAllImpl (some ()) (some p) buf).1 = EUikaErrorCode.Ok := by
  simp only [ArrayCopyAllImpl, hraw, if_true, hmod]
  rw [if_neg (by omega)]

/-- The 2^30-element 4-byte-element array is raw-copyable. -/
theorem hugeRawArray_isRaw : IsRawCopyableElement
    (⟨ElemKind.rawKind, 4, List.replicate (2 ^ 30) [0, 0, 0, 0]⟩
      : ArrayPropShape).innerKind = true := by
  decide

/-- Its uint32 size product `2^30 * 4` wraps to zero mod 2^32. -/
theorem hugeRawArray_sizeWrap :
    (⟨ElemKind.rawKind, 4, List.replicate (2 ^ 30) [0, 0, 0, 0]⟩
        : ArrayPropShape).elems.length
      * (⟨ElemKind.rawKind, 4, List.replicate (2 ^ 30) [0, 0, 0, 0]⟩
        : ArrayPropShape).innerSize % 2 ^ 32 = 0 := by
  rw [show (⟨ElemKind.rawKind, 4, List.replicate (2 ^ 30) [0, 0, 0, 0]⟩
      : ArrayPropShape).elems.length = 2 ^ 30 from List.length_replicate _ _]
  decide

/-- C4 counterexample.  Four too-small-destination reads that do not behave
as the claim states: (1) an indexed fixed-array element get with a 2-byte
buffer for a 4-byte element returns InternalError — not BufferTooSmall —
and its ABI has no out-parameter through which a required size could be
reported; (2) a framed bulk copy over a 2-string array with an empty
buffer returns BufferTooSmall but never stores any required size
(out-total-written stays untouched); (3) a framed bulk copy of one 10-byte
string into a 12-byte buffer (18 bytes required) returns Ok with a
silently truncated payload instead of BufferTooSmall; (4) a raw bulk copy
of 2^30 4-byte elements into an empty buffer returns Ok because the uint32
size product wraps to zero. -/
theorem c4_buffer_too_small_counterexample :
    (GetPropertyAtImpl (some ()) (some exFixedProp) 0 [0, 0]
        = (EUikaErrorCode.InternalError, [0, 0]) ∧
     EUikaErrorCode.InternalError ≠ EUikaErrorCode.BufferTooSmall ∧
     [0, 0].length < exFixedProp.elemSize) ∧
    ArrayCopyAllImpl (some ())
        (some ⟨ElemKind.strKind, 16, [[65, 66], [67, 68]]⟩) []
      = (EUikaErrorCode.BufferTooSmall, [], none, some 2) ∧
    ((ArrayCopyAllImpl (some ())
        (some ⟨ElemKind.strKind, 16, [[9, 9, 9, 9, 9, 9, 9, 9, 9, 9]]⟩)
        (List.replicate 12 0)).1 = EUikaErrorCode.Ok ∧
     (12 : Nat) < 4 + (4 + 10)) ∧
    ((ArrayCopyAllImpl (some ())
        (some ⟨ElemKind.rawKind, 4, List.replicate (2 ^ 30) [0, 0, 0, 0]⟩)
        []).1 = EUikaErrorCode.Ok ∧
     (0 : Nat) < 2 ^ 30 * 4) := by
  exact ⟨by decide, by decide, ⟨by decide, by decide⟩,
    arrayCopyAll_raw_wrap_zero _ hugeRawArray_isRaw hugeRawArray_sizeWrap [],
    by decide⟩

/-- C4 amended: a too-small destination is reported as the claim states
only by the raw-mode bulk copy whose uint32 size product does not
overflow: that path returns BufferTooSmall, reports the exact required
byte size, and leaves the destination unmodified.  The indexed fixed-array
element get returns InternalError for the same condition (destination also
unmodified) and reports no required size; the framed bulk path and an
overflowing raw size product give no such guarantee (see the
counterexample). -/
theorem c4_buffer_too_small_behavior :
    (∀ (p : FixedArrayProp) (idx : Nat) (buf : List Nat),
        idx < p.arrayDim → buf.length < p.elemSize →
        GetPropertyAtImpl (some ()) (some p) idx buf
          = (EUikaErrorCode.InternalError, buf)) ∧
    (∀ (a : ArrayPropShape) (buf : List Nat),
        IsRawCopyableElement a.innerKind = true →
        a.elems.length * a.innerSize < 2 ^ 32 →
        buf.length < a.elems.length * a.innerSize →
        ArrayCopyAllImpl (some ()) (some a) buf
          = (EUikaErrorCode.BufferTooSmall, buf,
             some (a.elems.length * a.innerSize), some (a.elems.length : Int))) := by
  constructor
  · intro p idx buf hidx hbuf
    simp only [GetPropertyAtImpl]
    rw [if_neg (by omega), if_pos hbuf]
  · intro a buf hraw hlt hbuf
    have hmod : a.elems.length * a.innerSize % 2 ^ 32
        = a.elems.length * a.innerSize := Nat.mod_eq_of_lt hlt
    simp only [ArrayCopyAllImpl, hraw, if_pos, if_true, hmod]
    rw [if_pos (by omega)]

/-- C4 amended, witness. -/
theorem c4_buffer_too_small_behavior_witness :
    GetPropertyAtImpl (some ()) (some exFixedProp) 1 [0]
        = (EUikaErrorCode.InternalError, [0]) ∧
    ArrayCopyAllImpl (some ()) (some exI32Array) []
        = (EUikaErrorCode.BufferTooSmall, [], some 4, some 1) :=
  ⟨c4_buffer_too_small_behavior.1 exFixedProp 1 [0] (by decide) (by decide),
   c4_buffer_too_small_behavior.2 exI32Array [] (by decide) (by decide) (by decide)⟩

/-! ## C8: raw-mode sentinel -/

/-- C8 counterexample: a bulk copy-all over an EMPTY array of a
primitively-copyable element kind succeeds in raw mode but returns element
count 0, which is not negative — the negative-count sentinel is absent for
the empty array. -/
theorem c8_empty_raw_array_counterexample :
    IsRawCopyableElement exEmptyI32Array.innerKind = true ∧
    ArrayCopyAllImpl (some ()) (some exEmptyI32Array) []
        = (EUikaErrorCode.Ok, [], some 0, some 0) ∧
    ¬ ((0 : Int) < 0) := by
  decide

/-- C8 amended: a successful bulk copy-all over a primitively-copyable
element kind whose uint32 size product `Count * ElemSize` does not
overflow uses raw fixed-size encoding (one contiguous byte copy of the
elements) and returns the NEGATED element count, which is negative exactly
when the array is non-empty (zero for an empty array); a non-raw element
kind reports the plain non-negative count. -/
theorem c8_raw_mode_sentinel :
    (∀ (a : ArrayPropShape) (buf : List Nat),
        IsRawCopyableElement a.innerKind = true →
        a.elems.length * a.innerSize < 2 ^ 32 →
        a.elems.length * a.innerSize ≤ buf.length →
        ArrayCopyAllImpl (some ()) (some a) buf
          = (EUikaErrorCode.Ok, writeBytes buf 0 a.elems.flatten,
             some (a.elems.length * a.innerSize),
             some (-(a.elems.length : Int))) ∧
        (0 < a.elems.length → -(a.elems.length : Int) < 0)) ∧
    (∀ (b : ArrayPropShape) (buf : List Nat),
        IsRawCopyableElement b.innerKind = false →
        (ArrayCopyAllImpl (some ()) (some b) buf).2.2.2
          = some (b.elems.length : Int)) := by
  constructor
  · intro a buf hraw hlt hfit
    have hmod : a.elems.length * a.innerSize % 2 ^ 32
        = a.elems.length * a.innerSize := Nat.mod_eq_of_lt hlt
    constructor
    · simp only [ArrayCopyAllImpl, hraw, if_true, hmod]
      rw [if_neg (by omega)]
    · intro hpos
      omega
  · intro b buf hnotraw
    simp only [ArrayCopyAllImpl, hnotraw]
    simp

/-- C8 amended, witness. -/
theorem c8_raw_mode_sentinel_witness :
    (ArrayCopyAllImpl (some ()) (some exI32Array) [0, 0, 0, 0]
        = (EUikaErrorCode.Ok, writeBytes [0, 0, 0, 0] 0 exI32Array.elems.flatten,
           some 4, some (-1 : Int)) ∧
     (0 < exI32Array.elems.length → (-1 : Int) < 0)) ∧
    (ArrayCopyAllImpl (some ())
        (some ⟨ElemKind.strKind, 16, []⟩) []).2.2.2 = some 0 :=
  ⟨c8_raw_mode_sentinel.1 exI32Array [0, 0, 0, 0] (by decide) (by decide) (by decide),
   c8_raw_mode_sentinel.2 ⟨ElemKind.strKind, 16, []⟩ [] (by decide)⟩

/-! ## C9: struct get/set size validation -/

/-- C9 counterexample: a struct get with supplied buffer size 0 — smaller
than the 8-byte struct — returns Ok and performs the full 8-byte copy: the
supplied size is never validated and no error is produced. -/
theorem c9_struct_no_size_validation_counterexample :
    GetStructImpl (some ()) exStructProp [0, 0, 0, 0, 0, 0, 0, 0] 0
        = (EUikaErrorCode.Ok, [1, 2, 3, 4, 5, 6, 7, 8]) ∧
    (0 : Nat) < 8 := by
  decide

/-- C9 amended: struct get/set copy the struct value byte-for-byte using
the struct's own size; the caller-supplied buffer size is accepted but
never validated — the result is identical for every supplied size and no
too-small size produces an error. -/
theorem c9_struct_raw_copy_ignores_bufsize :
    ∀ (sz : Nat) (bytes old inBuf buf : List Nat) (s1 s2 : Nat),
      GetStructImpl (some ()) (StructPropShape.structProp sz bytes) buf s1
        = (EUikaErrorCode.Ok, writeBytes buf 0 bytes) ∧
      GetStructImpl (some ()) (StructPropShape.structProp sz bytes) buf s1
        = GetStructImpl (some ()) (StructPropShape.structProp sz bytes) buf s2 ∧
      SetStructImpl (some ()) (StructPropShape.structProp sz old) inBuf s1
        = (EUikaErrorCode.Ok, StructPropShape.structProp sz (inBuf.take sz)) ∧
      (bytes.length ≤ buf.length →
        writeBytes buf 0 bytes = bytes ++ buf.drop bytes.length) := by
  intro sz bytes old inBuf buf s1 s2
  refine ⟨rfl, rfl, rfl, ?_⟩
  intro h
  have := writeBytes_spec bytes buf 0 (by omega)
  simpa using this

/-- C9 amended, witness. -/
theorem c9_struct_raw_copy_ignores_bufsize_witness :
    GetStructImpl (some ()) (StructPropShape.structProp 2 [9, 9]) [0, 0, 0] 0
        = (EUikaErrorCode.Ok, writeBytes [0, 0, 0] 0 [9, 9]) ∧
    GetStructImpl (some ()) (StructPropShape.structProp 2 [9, 9]) [0, 0, 0] 0
        = GetStructImpl (some ()) (StructPropShape.structProp 2 [9, 9]) [0, 0, 0] 7 ∧
    SetStructImpl (some ()) (StructPropShape.structProp 2 [9, 9]) [5, 6, 7] 0
        = (EUikaErrorCode.Ok, StructPropShape.structProp 2 [5, 6]) ∧
    writeBytes [0, 0, 0] 0 [9, 9] = [9, 9] ++ [0, 0, 0].drop 2 := by
  have h := c9_struct_raw_copy_ignores_bufsize 2 [9, 9] [9, 9] [5, 6, 7] [0, 0, 0] 0 7
  exact ⟨h.1, h.2.1, h.2.2.1, h.2.2.2 (by decide)⟩

/-! ## C10: string get truncation -/

/-- C10 confirmed: a string (or localized-text) field get with a non-null
instance handle returns Ok, reports the full UTF-8 byte length through the
out-length parameter, and writes at most the caller's buffer length: when
the buffer is smaller than the value it receives exactly the value's first
`buffer-length` bytes. -/
theorem c10_string_get_truncates :
    ∀ (v b : List Nat),
      GetStringImpl (some ()) (StringPropShape.strProp v) (some b) true
        = (EUikaErrorCode.Ok,
           some (writeBytes b 0 (v.take (min v.length b.length))),
           some v.length) ∧
      GetStringImpl (some ()) (StringPropShape.textProp v) (some b) true
        = (EUikaErrorCode.Ok,
           some (writeBytes b 0 (v.take (min v.length b.length))),
           some v.length) ∧
      (writeBytes b 0 (v.take (min v.length b.length))).length = b.length ∧
      (b.length < v.length →
        writeBytes b 0 (v.take (min v.length b.length)) = v.take b.length) := by
  intro v b
  have hcase : ∀ (w : List Nat),
      (if b.length > 0 then
        (EUikaErrorCode.Ok, some (writeBytes b 0 (w.take (min w.length b.length))),
          some w.length)
       else (EUikaErrorCode.Ok, some b, some w.length))
      = (EUikaErrorCode.Ok,
         some (writeBytes b 0 (w.take (min w.length b.length))), some w.length) := by
    intro w
    by_cases hb : b.length > 0
    · rw [if_pos hb]
    · rw [if_neg hb]
      have hb0 : b = [] := List.length_eq_zero.mp (by omega)
      subst hb0
      have hw : writeBytes ([] : List Nat) 0
          (w.take (min w.length ([] : List Nat).length)) = [] :=
        List.length_eq_zero.mp
          ((writeBytes_length (w.take (min w.length ([] : List Nat).length))
            [] 0).trans rfl)
      rw [hw]
  refine ⟨?_, ?_, ?_, ?_⟩
  · simp only [GetStringImpl]
    exact hcase v
  · simp only [GetStringImpl]
    exact hcase v
  · exact writeBytes_length _ b 0
  · intro h
    have hmin : min v.length b.length = b.length := by omega
    rw [hmin]
    have hlen : (v.take b.length).length = b.length := by
      simp [List.length_take]
      omega
    have := writeBytes_spec (v.take b.length) b 0 (by omega)
    simp only [List.take_zero, List.nil_append, Nat.zero_add, hlen] at this
    simpa [List.drop_length] using this

/-- C10 witness. -/
theorem c10_string_get_truncates_witness :
    GetStringImpl (some ()) (StringPropShape.strProp [10, 20, 30]) (some [0, 0]) true
      = (EUikaErrorCode.Ok,
         some (writeBytes [0, 0] 0 ([10, 20, 30].take (min 3 2))), some 3) ∧
    writeBytes [0, 0] 0 ([10, 20, 30].take (min 3 2)) = [10, 20] := by
  have h := c10_string_get_truncates [10, 20, 30] [0, 0]
  exact ⟨by simpa using h.1, by simpa using h.2.2.2 (by decide)⟩

/-! ## C6: pinned destroy notification -/

/-- C6 confirmed: registering an instance as pinned and then having the
host destroy it fires the destroyed-notification exactly once and removes
the entry; a subsequent unregister-pinned on the now-dangling handle is a
no-op (state unchanged, nothing fired), and unregister-pinned never fires
the notification at all. -/
theorem c6_pinned_destroy_notification
    (cb : RustCallbacksShape) (o : Nat) (s : List Nat)
    (hcb : cb.hasNotifyPinnedDestroyed = true) :
    (PinnedNotifyUObjectDeleted (some cb) o (RegisterPinnedImpl (some o) s)).1
      = [Event.notifyPinnedDestroyed o] ∧
    o ∉ (PinnedNotifyUObjectDeleted (some cb) o (RegisterPinnedImpl (some o) s)).2 ∧
    UnregisterPinnedImpl (some o)
        (PinnedNotifyUObjectDeleted (some cb) o (RegisterPinnedImpl (some o) s)).2
      = ([], (PinnedNotifyUObjectDeleted (some cb) o (RegisterPinnedImpl (some o) s)).2) ∧
    (∀ (obj : Option Nat) (s' : List Nat), (UnregisterPinnedImpl obj s').1 = []) := by
  have hmem : o ∈ RegisterPinnedImpl (some o) s := by
    simp only [RegisterPinnedImpl]
    by_cases h : o ∈ s
    · rw [if_pos h]; exact h
    · rw [if_neg h]; exact List.mem_cons_self o s
  have hfire : (PinnedNotifyUObjectDeleted (some cb) o (RegisterPinnedImpl (some o) s)).1
      = [Event.notifyPinnedDestroyed o] := by
    simp only [PinnedNotifyUObjectDeleted, if_pos hmem, hcb, if_true]
  have hstate : (PinnedNotifyUObjectDeleted (some cb) o (RegisterPinnedImpl (some o) s)).2
      = (RegisterPinnedImpl (some o) s).filter (fun x => x ≠ o) := by
    simp only [PinnedNotifyUObjectDeleted, if_pos hmem]
  have hgone : o ∉ (PinnedNotifyUObjectDeleted (some cb) o (RegisterPinnedImpl (some o) s)).2 := by
    rw [hstate]
    intro hmem2
    have := List.of_mem_filter hmem2
    simp at this
  refine ⟨hfire, hgone, ?_, ?_⟩
  · simp only [UnregisterPinnedImpl]
    have : (PinnedNotifyUObjectDeleted (some cb) o
        (RegisterPinnedImpl (some o) s)).2.filter (fun x => x ≠ o)
        = (PinnedNotifyUObjectDeleted (some cb) o (RegisterPinnedImpl (some o) s)).2 := by
      apply List.filter_eq_self.mpr
      intro x hx
      simp only [ne_eq, decide_eq_true_eq]
      intro hxo
      exact hgone (hxo ▸ hx)
    rw [this]
  · intro obj s'
    cases obj <;> rfl

/-- C6 witness. -/
theorem c6_pinned_destroy_notification_witness :
    (PinnedNotifyUObjectDeleted (some exCallbacks) 3 (RegisterPinnedImpl (some 3) [])).1
      = [Event.notifyPinnedDestroyed 3] ∧
    3 ∉ (PinnedNotifyUObjectDeleted (some exCallbacks) 3 (RegisterPinnedImpl (some 3) [])).2 ∧
    UnregisterPinnedImpl (some 3)
        (PinnedNotifyUObjectDeleted (some exCallbacks) 3 (RegisterPinnedImpl (some 3) [])).2
      = ([], (PinnedNotifyUObjectDeleted (some exCallbacks) 3 (RegisterPinnedImpl (some 3) [])).2) ∧
    (∀ (obj : Option Nat) (s' : List Nat), (UnregisterPinnedImpl obj s').1 = []) :=
  c6_pinned_destroy_notification exCallbacks 3 [] (by decide)

/-! ## C2 / C7: hot-reload teardown and reconstruct -/

/-- Every drop notification due for a live non-CDO reified instance occurs
in the teardown event list. -/
theorem drop_mem_teardown (st : ModuleState) (cb : RustCallbacksShape)
    (hL : st.dllLoaded = true) (hcb : st.callbacks = some cb)
    (hdrop : cb.hasDropHook = true) (i : InstanceShape) (hi : i ∈ st.instances)
    (hcdo : i.isCDO = false) (tid : Nat) (ht : i.reifiedTypeId = some tid) :
    Event.dropInstance i.id tid ∈ TeardownReifiedInstances st := by
  simp only [TeardownReifiedInstances, hL, hcb, hdrop, Bool.and_self, if_true]
  apply List.mem_map.mpr
  refine ⟨i, ?_, by rw [ht]; rfl⟩
  simp only [forEachReifiedInstance, List.mem_filter]
  exact ⟨hi, by simp [hcdo, ht]⟩

/-- The reconstruct phase emits construct events only. -/
theorem reconstruct_no_drop (st : ModuleState) :
    ∀ e ∈ ReconstructReifiedInstances st, ∀ a b, e ≠ Event.dropInstance a b := by
  intro e he a b
  simp only [ReconstructReifiedInstances] at he
  split at he
  · obtain ⟨i, _, rfl⟩ := List.mem_map.mp he
    intro hcontra
    exact Event.noConfusion hcontra
  · exact absurd he (List.not_mem_nil e)

/-- C2 confirmed: in every execution of the hot-reload sequence that
reaches the unload, the drop hook has been invoked for every live non-CDO
instance of a reified type before the binary is released (all drop events
precede the FreeDllHandle event, and no drop event follows it) — the
module is never unloaded while such an instance still awaits its drop
notification.  (Per the spec's Teardown description, the teardown set
excludes each type's own default instance.) -/
theorem c2_teardown_completes_before_unload
    (st : ModuleState) (cb : RustCallbacksShape)
    (hL : st.dllLoaded = true) (hcb : st.callbacks = some cb)
    (hdrop : cb.hasDropHook = true) (hpath : st.dllSourcePathSet = true) :
    ∃ pre post,
      (ReloadRustDll st).1 = pre ++ Event.freeDll :: post ∧
      (∀ i ∈ st.instances, i.isCDO = false → ∀ tid, i.reifiedTypeId = some tid →
          Event.dropInstance i.id tid ∈ pre) ∧
      (∀ e ∈ post, ∀ a b, e ≠ Event.dropInstance a b) := by
  have hunload : (UnloadRustDll st).1
      = (if cb.hasOnShutdown then [Event.onShutdown] else []) ++ [Event.freeDll] := by
    simp only [UnloadRustDll, hL, hcb, if_true]
  have hpre : ∀ i ∈ st.instances, i.isCDO = false →
      ∀ tid, i.reifiedTypeId = some tid →
      Event.dropInstance i.id tid ∈
        TeardownReifiedInstances st ++ (if cb.hasOnShutdown then [Event.onShutdown] else []) := by
    intro i hi hcdo tid ht
    exact List.mem_append_left _ (drop_mem_teardown st cb hL hcb hdrop i hi hcdo tid ht)
  simp only [ReloadRustDll, hpath, Bool.not_true, Bool.false_eq_true, if_false]
  cases hse : st.sourceDllExists with
  | false =>
      refine ⟨TeardownReifiedInstances st
          ++ (if cb.hasOnShutdown then [Event.onShutdown] else []),
        [], ?_, hpre, ?_⟩
      · simp only [hse, Bool.not_false, if_true, hunload]
        simp [List.append_assoc]
      · intro e he
        exact absurd he (List.not_mem_nil e)
  | true =>
    cases hcp : st.copySucceeds with
    | false =>
        refine ⟨TeardownReifiedInstances st
            ++ (if cb.hasOnShutdown then [Event.onShutdown] else []),
          [], ?_, hpre, ?_⟩
        · simp only [hse, hcp, Bool.not_true, Bool.not_false, Bool.false_eq_true,
            if_false, if_true, hunload]
          simp [List.append_assoc]
        · intro e he
          exact absurd he (List.not_mem_nil e)
    | true =>
      cases hnl : st.newDllLoads with
      | false =>
          refine ⟨TeardownReifiedInstances st
              ++ (if cb.hasOnShutdown then [Event.onShutdown] else []),
            [Event.copyDll], ?_, hpre, ?_⟩
          · simp only [hse, hcp, hnl, Bool.not_true, Bool.false_eq_true, if_false,
              if_true, hunload]
            simp [List.append_assoc]
          · intro e he a b
            simp only [List.mem_singleton] at he
            subst he
            intro hcontra; exact Event.noConfusion hcontra
      | true =>
          refine ⟨TeardownReifiedInstances st
              ++ (if cb.hasOnShutdown then [Event.onShutdown] else []),
            [Event.copyDll, Event.loadDll]
              ++ ReconstructReifiedInstances
                  (AfterLoadState (UnloadRustDll st).2 st.newCallbacks),
            ?_, hpre, ?_⟩
          · simp only [hse, hcp, hnl, Bool.not_true, Bool.false_eq_true, if_false,
              if_true, hunload]
            simp [List.append_assoc]
          · intro e he a b
            rcases List.mem_append.mp he with h2 | h2
            · simp only [List.mem_cons, List.not_mem_nil, or_false] at h2
              rcases h2 with rfl | rfl <;>
                (intro hcontra; exact Event.noConfusion hcontra)
            · exact reconstruct_no_drop _ e h2 a b

/-- C2 witness. -/
theorem c2_teardown_completes_before_unload_witness :
    ∃ pre post,
      (ReloadRustDll exReloadState).1 = pre ++ Event.freeDll :: post ∧
      (∀ i ∈ exReloadState.instances, i.isCDO = false →
          ∀ tid, i.reifiedTypeId = some tid →
          Event.dropInstance i.id tid ∈ pre) ∧
      (∀ e ∈ post, ∀ a b, e ≠ Event.dropInstance a b) :=
  c2_teardown_completes_before_unload exReloadState exCallbacks rfl rfl rfl rfl

/-- C7 counterexample: a hot reload over a state whose only live instance
of a reified type is that type's default instance (CDO) emits NO construct
event for it — the per-instance construct hook is not invoked for every
live instance whose type is a reified type descriptor, because default
instances are skipped by the instance walk. -/
theorem c7_cdo_receives_no_construct_counterexample :
    exReloadStateCDO.instances = [⟨0, true, some 5⟩] ∧
    (∀ b, Event.constructInstance 0 5 b ∉ (ReloadRustDll exReloadStateCDO).1) := by
  decide

/-- Counting helper: the reconstruct walk over instances with pairwise
distinct pointers emits the construct event of a given live non-CDO
reified instance exactly once. -/
theorem construct_count_one (insts : List InstanceShape)
    (hnodup : (insts.map (fun i => i.id)).Nodup)
    (i : InstanceShape) (hi : i ∈ insts) (hcdo : i.isCDO = false)
    (tid : Nat) (ht : i.reifiedTypeId = some tid) :
    ((forEachReifiedInstance insts).map
        (fun j => Event.constructInstance j.id (j.reifiedTypeId.getD 0) j.isCDO)).count
      (Event.constructInstance i.id tid false) = 1 := by
  induction insts with
  | nil => cases hi
  | cons h t ih =>
    simp only [List.map_cons, List.nodup_cons] at hnodup
    obtain ⟨hhead, htail⟩ := hnodup
    simp only [forEachReifiedInstance, List.filter_cons]
    rcases List.mem_cons.mp hi with rfl | hit
    · have hpass : (!i.isCDO && i.reifiedTypeId.isSome) = true := by
        rw [hcdo, ht]; rfl
      rw [if_pos hpass, List.map_cons, List.count_cons]
      have hzero : ((List.filter (fun j => !j.isCDO && j.reifiedTypeId.isSome) t).map
          (fun j => Event.constructInstance j.id (j.reifiedTypeId.getD 0) j.isCDO)).count
            (Event.constructInstance i.id tid false) = 0 := by
        apply List.count_eq_zero.mpr
        intro hmem
        obtain ⟨j, hj, heq⟩ := List.mem_map.mp hmem
        have hjid : j.id = i.id := by injection heq
        exact hhead (List.mem_map.mpr ⟨j, List.mem_of_mem_filter hj, hjid⟩)
      rw [hzero]
      have hev : (Event.constructInstance i.id (i.reifiedTypeId.getD 0) i.isCDO
          == Event.constructInstance i.id tid false) = true := by
        rw [hcdo, ht]
        exact beq_self_eq_true _
      rw [if_pos hev]
    · have hne : h.id ≠ i.id := by
        intro hcontra
        exact hhead (List.mem_map.mpr ⟨i, hit, hcontra.symm⟩)
      have hrest := ih htail hit
      simp only [forEachReifiedInstance] at hrest
      cases hpass : (!h.isCDO && h.reifiedTypeId.isSome) with
      | true =>
          rw [if_pos rfl, List.map_cons, List.count_cons, hrest]
          rw [if_neg (by
            intro hcontra
            have := eq_of_beq hcontra
            have hid : h.id = i.id := by injection this
            exact hne hid)]
      | false =>
          rw [if_neg Bool.false_ne_true]
          exact hrest

/-- C7 amended: during Reconstruct, the construct hook is invoked exactly
once for every live NON-DEFAULT instance whose type is still a reified
type descriptor, passing the instance's default-instance flag (necessarily
false); the type's default instance itself is skipped by the walk, so no
construct event ever carries the flag true. -/
theorem c7_reconstruct_nondefault_exactly_once
    (st : ModuleState) (cb : RustCallbacksShape)
    (hcb : st.callbacks = some cb) (hhook : cb.hasConstructHook = true)
    (hnodup : (st.instances.map (fun i => i.id)).Nodup)
    (i : InstanceShape) (hi : i ∈ st.instances) (hcdo : i.isCDO = false)
    (tid : Nat) (ht : i.reifiedTypeId = some tid) :
    (ReconstructReifiedInstances st).count
        (Event.constructInstance i.id tid false) = 1 ∧
    (∀ e ∈ ReconstructReifiedInstances st, ∀ a tj,
        e ≠ Event.constructInstance a tj true) := by
  constructor
  · simp only [ReconstructReifiedInstances, hcb, hhook]
    exact construct_count_one st.instances hnodup i hi hcdo tid ht
  · intro e he a tj
    simp only [ReconstructReifiedInstances] at he
    split at he
    · obtain ⟨j, hj, rfl⟩ := List.mem_map.mp he
      have hjcdo : j.isCDO = false := by
        simp only [forEachReifiedInstance, List.mem_filter] at hj
        have := hj.2
        simp only [Bool.and_eq_true, Bool.not_eq_true'] at this
        exact this.1
      rw [hjcdo]
      intro hcontra
      have : False := by
        injection hcontra with h1 h2 h3
        exact Bool.noConfusion h3
      exact this
    · exact absurd he (List.not_mem_nil e)

/-- C7 amended, witness. -/
theorem c7_reconstruct_nondefault_exactly_once_witness :
    (ReconstructReifiedInstances exReloadState).count
        (Event.constructInstance 1 7 false) = 1 ∧
    (∀ e ∈ ReconstructReifiedInstances exReloadState, ∀ a tj,
        e ≠ Event.constructInstance a tj true) :=
  c7_reconstruct_nondefault_exactly_once exReloadState exCallbacks rfl rfl
    (by decide) ⟨1, false, some 7⟩ (by decide) rfl 7 rfl

/-! ## Registry helper lemmas -/

/-- `find?` commutes with a map that does not change the predicate's
verdict. -/
theorem find?_map_invar {α : Type} (p : α → Bool) (g : α → α) (l : List α)
    (h : ∀ a, p (g a) = p a) : (l.map g).find? p = (l.find? p).map g := by
  induction l with
  | nil => rfl
  | cons a t ih =>
    cases ha : p a with
    | true =>
        rw [List.map_cons, List.find?_cons_of_pos _ (by rw [h a, ha]),
          List.find?_cons_of_pos _ ha, Option.map_some']
    | false =>
        rw [List.map_cons,
          List.find?_cons_of_neg _ (by rw [h a, ha]; exact Bool.false_ne_true),
          List.find?_cons_of_neg _ (by rw [ha]; exact Bool.false_ne_true), ih]

/-- The descriptor CreatePropertyByType builds on success. -/
theorem createProp_eq (o : Nat) (n : String) (ty : EUikaReifyPropType)
    (ex : Option FUikaReifyPropExtra) (p : PropDesc)
    (h : CreatePropertyByType o n ty ex = some p) : p = ⟨o, n, ty, 0⟩ := by
  unfold CreatePropertyByType at h
  split at h
  · split at h
    · split at h
      · exact (Option.some.inj h).symm
      · exact Option.noConfusion h
    · exact Option.noConfusion h
  · split at h
    · split at h
      · exact (Option.some.inj h).symm
      · exact Option.noConfusion h
    · exact Option.noConfusion h
  · exact (Option.some.inj h).symm

/-- Updating the descriptor behind a function handle in place (id kept)
makes the handle dereference to the updated descriptor. -/
theorem findFunc_updateFunc_self (r : Registry) (fid : Nat)
    (g : FuncDesc → FuncDesc) (hg : ∀ f, (g f).id = f.id) (f : FuncDesc)
    (hf : findFunc r fid = some f) :
    findFunc (updateFunc r fid g) fid = some (g f) := by
  unfold findFunc at hf ⊢
  show (r.funcs.map (fun x => if x.id == fid then g x else x)).find?
      (fun x => x.id == fid) = some (g f)
  rw [find?_map_invar _ _ _ (by
    intro a
    by_cases hc : (a.id == fid) = true
    · rw [if_pos hc]
      show ((g a).id == fid) = (a.id == fid)
      rw [hg]
    · rw [if_neg hc])]
  rw [hf, Option.map_some']
  have hfid : (f.id == fid) = true :=
    List.find?_some (p := fun (x : FuncDesc) => x.id == fid) hf
  rw [if_pos hfid]

/-! ## C5: parameter chain order -/

/-- AddFunctionParamImpl with an already-present parameter name is a no-op
success. -/
theorem addParam_duplicate_noop (r : Registry) (fid : Nat) (f : FuncDesc)
    (hf : findFunc r fid = some f) (n : String) (ty : EUikaReifyPropType)
    (fl : Nat) (ex : Option FUikaReifyPropExtra)
    (hdup : ∃ p ∈ f.childProperties, p.name = n) :
    AddFunctionParamImpl r (some fid) n ty fl ex = (EUikaErrorCode.Ok, r) := by
  obtain ⟨p, hp, hpn⟩ := hdup
  have hany : f.childProperties.any (fun q => q.name == n) = true :=
    List.any_eq_true.mpr ⟨p, hp, by rw [hpn]; exact beq_self_eq_true n⟩
  simp only [AddFunctionParamImpl, hf, hany, if_true]

/-- AddFunctionParamImpl with a fresh, constructible parameter appends one
property of that name at the end of the chain. -/
theorem addParam_fresh_appends (r : Registry) (fid : Nat) (f : FuncDesc)
    (hf : findFunc r fid = some f) (n : String) (ty : EUikaReifyPropType)
    (fl : Nat) (ex : Option FUikaReifyPropExtra)
    (hnot : ∀ p ∈ f.childProperties, p.name ≠ n)
    (hcr : (CreatePropertyByType fid n ty ex).isSome = true) :
    ∃ p : PropDesc, p.name = n ∧
      AddFunctionParamImpl r (some fid) n ty fl ex
        = (EUikaErrorCode.Ok,
           updateFunc r fid (fun g =>
             { g with childProperties := g.childProperties ++ [p] })) := by
  obtain ⟨pd, hpd⟩ := Option.isSome_iff_exists.mp hcr
  have hpdeq := createProp_eq fid n ty ex pd hpd
  have hany : f.childProperties.any (fun q => q.name == n) = false :=
    List.any_eq_false.mpr (fun q hq => by
      intro hqn
      exact hnot q hq (eq_of_beq hqn))
  refine ⟨{ pd with propFlags := Nat.lor fl CPF_Parm }, by rw [hpdeq], ?_⟩
  simp only [AddFunctionParamImpl, hf, hany, Bool.false_eq_true, if_false, hpd]

/-- Running a list of fresh, constructible parameter declarations appends
them at the end of the chain in call order, each call succeeding. -/
theorem runParams_spec :
    ∀ (specs : List (String × EUikaReifyPropType × Nat × Option FUikaReifyPropExtra))
      (r : Registry) (fid : Nat) (f : FuncDesc),
      findFunc r fid = some f →
      (specs.map (fun s => s.1)).Nodup →
      (∀ s ∈ specs, ∀ p ∈ f.childProperties, p.name ≠ s.1) →
      (∀ s ∈ specs, (CreatePropertyByType fid s.1 s.2.1 s.2.2.2).isSome = true) →
      (runParams r fid specs).1 = specs.map (fun _ => EUikaErrorCode.Ok) ∧
      (findFunc (runParams r fid specs).2 fid).map
          (fun g => g.childProperties.map (fun p => p.name))
        = some (f.childProperties.map (fun p => p.name)
            ++ specs.map (fun s => s.1)) := by
  intro specs
  induction specs with
  | nil =>
    intro r fid f hf _ _ _
    refine ⟨rfl, ?_⟩
    show (findFunc r fid).map _ = _
    rw [hf, Option.map_some', List.map_nil, List.append_nil]
  | cons s rest ih =>
    intro r fid f hf hnodup hfresh hcr
    obtain ⟨p, hpname, hstep⟩ := addParam_fresh_appends r fid f hf s.1 s.2.1
      s.2.2.1 s.2.2.2
      (fun q hq => hfresh s (List.mem_cons_self s rest) q hq)
      (hcr s (List.mem_cons_self s rest))
    have hff' : findFunc (AddFunctionParamImpl r (some fid) s.1 s.2.1 s.2.2.1 s.2.2.2).2 fid
        = some { f with childProperties := f.childProperties ++ [p] } := by
      rw [hstep]
      exact findFunc_updateFunc_self r fid
        (fun g => { g with childProperties := g.childProperties ++ [p] })
        (fun g => rfl) f hf
    simp only [List.map_cons, List.nodup_cons] at hnodup
    obtain ⟨hs1, hnd⟩ := hnodup
    have hfr' : ∀ s' ∈ rest,
        ∀ q ∈ ({ f with childProperties := f.childProperties ++ [p] } : FuncDesc).childProperties,
        q.name ≠ s'.1 := by
      intro s' hs' q hq
      rcases List.mem_append.mp hq with hq1 | hq2
      · exact hfresh s' (List.mem_cons_of_mem _ hs') q hq1
      · simp only [List.mem_singleton] at hq2
        subst hq2
        rw [hpname]
        intro hcon
        exact hs1 (by rw [hcon]; exact List.mem_map.mpr ⟨s', hs', rfl⟩)
    have hrest := ih (AddFunctionParamImpl r (some fid) s.1 s.2.1 s.2.2.1 s.2.2.2).2
      fid _ hff' hnd hfr'
      (fun s' hs' => hcr s' (List.mem_cons_of_mem _ hs'))
    constructor
    · show ((AddFunctionParamImpl r (some fid) s.1 s.2.1 s.2.2.1 s.2.2.2).1
          :: (runParams _ fid rest).1) = _
      rw [List.map_cons, hrest.1, hstep]
    · show (findFunc (runParams (AddFunctionParamImpl r (some fid) s.1 s.2.1 s.2.2.1 s.2.2.2).2 fid rest).2 fid).map _ = _
      rw [hrest.2]
      simp only [List.map_append, List.map_cons, List.map_nil, List.append_assoc,
        List.singleton_append, hpname]

/-- C5 confirmed: for every method descriptor and every sequence of
successful add-parameter calls with pairwise distinct fresh names, every
call returns success and the parameter chain lists the parameters exactly
in call order, appended at the end; an add with an already-present
parameter name returns success and leaves the chain (and the whole
registry) unchanged. -/
theorem c5_parameter_chain_order :
    (∀ (specs : List (String × EUikaReifyPropType × Nat × Option FUikaReifyPropExtra))
       (r : Registry) (fid : Nat) (f : FuncDesc),
       findFunc r fid = some f →
       (specs.map (fun s => s.1)).Nodup →
       (∀ s ∈ specs, ∀ p ∈ f.childProperties, p.name ≠ s.1) →
       (∀ s ∈ specs, (CreatePropertyByType fid s.1 s.2.1 s.2.2.2).isSome = true) →
       (runParams r fid specs).1 = specs.map (fun _ => EUikaErrorCode.Ok) ∧
       (findFunc (runParams r fid specs).2 fid).map
           (fun g => g.childProperties.map (fun p => p.name))
         = some (f.childProperties.map (fun p => p.name)
             ++ specs.map (fun s => s.1))) ∧
    (∀ (r : Registry) (fid : Nat) (f : FuncDesc) (n : String)
       (ty : EUikaReifyPropType) (fl : Nat) (ex : Option FUikaReifyPropExtra),
       findFunc r fid = some f →
       (∃ p ∈ f.childProperties, p.name = n) →
       AddFunctionParamImpl r (some fid) n ty fl ex = (EUikaErrorCode.Ok, r)) :=
  ⟨runParams_spec,
   fun r fid f n ty fl ex hf hdup => addParam_duplicate_noop r fid f hf n ty fl ex hdup⟩

/-- `find?` only depends on the predicate's values on the list. -/
theorem find?_congr_pred {α : Type} (p q : α → Bool) (l : List α)
    (h : ∀ a ∈ l, p a = q a) : l.find? p = l.find? q := by
  induction l with
  | nil => rfl
  | cons a t ih =>
    cases ha : q a with
    | true =>
        rw [List.find?_cons_of_pos _ (by rw [h a (List.mem_cons_self a t), ha]),
          List.find?_cons_of_pos _ ha]
    | false =>
        rw [List.find?_cons_of_neg _ (by
            rw [h a (List.mem_cons_self a t), ha]; exact Bool.false_ne_true),
          List.find?_cons_of_neg _ (by rw [ha]; exact Bool.false_ne_true),
          ih (fun a ha => h a (List.mem_cons_of_mem _ ha))]

/-- FinalizeClassImpl never touches the function, property, or allocator
state. -/
theorem finalize_preserves (r : Registry) (cls : Option Nat) :
    ((FinalizeClassImpl r cls).2).funcs = r.funcs ∧
    ((FinalizeClassImpl r cls).2).props = r.props ∧
    ((FinalizeClassImpl r cls).2).nextId = r.nextId := by
  cases cls with
  | none => exact ⟨rfl, rfl, rfl⟩
  | some cid =>
    cases hc : findClass r cid with
    | none =>
        simp only [FinalizeClassImpl, hc]
        refine ⟨?_, ?_, ?_⟩ <;> trivial
    | some c =>
      cases hcon : c.constructed with
      | true =>
          simp only [FinalizeClassImpl, hc, hcon, if_true]
          refine ⟨?_, ?_, ?_⟩ <;> trivial
      | false =>
          simp only [FinalizeClassImpl, hc, hcon, Bool.false_eq_true, if_false]
          refine ⟨?_, ?_, ?_⟩ <;> trivial

/-- FinalizeClassImpl rewrites the class list through a function that
preserves every class's name, id, ChildProperties and function list. -/
theorem finalize_classes_map (r : Registry) (cls : Option Nat) :
    ∃ g : ClassDesc → ClassDesc,
      ((FinalizeClassImpl r cls).2).classes = r.classes.map g ∧
      (∀ c, (g c).name = c.name) ∧ (∀ c, (g c).id = c.id) ∧
      (∀ c, (g c).functionIds = c.functionIds) ∧
      (∀ c, (g c).childPropIds = c.childPropIds) := by
  cases cls with
  | none =>
      exact ⟨id, (List.map_id _).symm, fun _ => rfl, fun _ => rfl, fun _ => rfl,
        fun _ => rfl⟩
  | some cid =>
    cases hc : findClass r cid with
    | none =>
        refine ⟨id, ?_, fun _ => rfl, fun _ => rfl, fun _ => rfl, fun _ => rfl⟩
        simp only [FinalizeClassImpl, hc]
        exact (List.map_id _).symm
    | some c =>
      cases hcon : c.constructed with
      | true =>
          refine ⟨id, ?_, fun _ => rfl, fun _ => rfl, fun _ => rfl, fun _ => rfl⟩
          simp only [FinalizeClassImpl, hc, hcon, if_true]
          exact (List.map_id _).symm
      | false =>
          refine ⟨fun c0 => if c0.id == cid then
              { c0 with propertyLink := c0.childPropIds, constructed := true }
            else c0, ?_, ?_, ?_, ?_, ?_⟩
          · simp only [FinalizeClassImpl, hc, hcon, Bool.false_eq_true, if_false]
            rfl
          all_goals
            intro c0
            dsimp only
            by_cases h0 : (c0.id == cid) = true
            case pos => rw [if_pos h0]
            case neg => rw [if_neg h0]

/-- `maybeFinalize` versions of the two preservation lemmas. -/
theorem maybeFinalize_preserves (fin : Bool) (r : Registry) (cls : Option Nat) :
    ((maybeFinalize fin r cls)).funcs = r.funcs ∧
    ((maybeFinalize fin r cls)).props = r.props ∧
    ((maybeFinalize fin r cls)).nextId = r.nextId := by
  cases fin with
  | false => exact ⟨rfl, rfl, rfl⟩
  | true => exact finalize_preserves r cls

theorem maybeFinalize_classes_map (fin : Bool) (r : Registry) (cls : Option Nat) :
    ∃ g : ClassDesc → ClassDesc,
      ((maybeFinalize fin r cls)).classes = r.classes.map g ∧
      (∀ c, (g c).name = c.name) ∧ (∀ c, (g c).id = c.id) ∧
      (∀ c, (g c).functionIds = c.functionIds) ∧
      (∀ c, (g c).childPropIds = c.childPropIds) := by
  cases fin with
  | false =>
      exact ⟨id, (List.map_id _).symm, fun _ => rfl, fun _ => rfl, fun _ => rfl,
        fun _ => rfl⟩
  | true => exact finalize_classes_map r cls

/-- Dereferencing a class handle after the class list was rewritten by an
id-preserving function yields the rewritten descriptor. -/
theorem findClass_map_state (rA : Registry) (cid : Nat) (c : ClassDesc)
    (hc : findClass rA cid = some c) (rB : Registry) (G : ClassDesc → ClassDesc)
    (hBcl : rB.classes = rA.classes.map G) (hGid : ∀ x, (G x).id = x.id) :
    findClass rB cid = some (G c) := by
  unfold findClass at hc ⊢
  rw [hBcl, find?_map_invar _ G _ (fun a => by
      show ((G a).id == cid) = (a.id == cid)
      rw [hGid]),
    hc, Option.map_some']

/-- Name lookup after the class list was rewritten by a name-preserving
function. -/
theorem findClassByName_map_state (rA : Registry) (nm : String)
    (rB : Registry) (G : ClassDesc → ClassDesc)
    (hBcl : rB.classes = rA.classes.map G) (hGname : ∀ x, (G x).name = x.name) :
    findClassByName rB nm = (findClassByName rA nm).map G := by
  unfold findClassByName
  rw [hBcl, find?_map_invar _ G _ (fun a => by
      show ((G a).name == nm) = (a.name == nm)
      rw [hGname])]

/-- The FindFunctionByName scan predicate is unchanged when the function
store is rewritten by an id- and name-preserving function. -/
theorem funcNameMatches_map_funcs (rA rB : Registry) (u : FuncDesc → FuncDesc)
    (hAB : rB.funcs = rA.funcs.map u)
    (hid : ∀ f, (u f).id = f.id) (hname : ∀ f, (u f).name = f.name)
    (n : String) : ∀ a, funcNameMatches rB n a = funcNameMatches rA n a := by
  intro a
  unfold funcNameMatches findFunc
  rw [hAB, find?_map_invar _ u _ (fun f => by
      show ((u f).id == a) = (f.id == a)
      rw [hid])]
  cases hfa : rA.funcs.find? (fun f => f.id == a) with
  | none => rfl
  | some f =>
      rw [Option.map_some']
      show ((u f).name == n) = (f.name == n)
      rw [hname]

/-- `idUpdate` preserves whatever `g` preserves. -/
theorem idUpdate_name (cid : Nat) (g : ClassDesc → ClassDesc)
    (hg : ∀ c, (g c).name = c.name) (c : ClassDesc) :
    (idUpdate cid g c).name = c.name := by
  unfold idUpdate
  by_cases h : (c.id == cid) = true
  · rw [if_pos h]; exact hg c
  · rw [if_neg h]

theorem idUpdate_id (cid : Nat) (g : ClassDesc → ClassDesc)
    (hg : ∀ c, (g c).id = c.id) (c : ClassDesc) :
    (idUpdate cid g c).id = c.id := by
  unfold idUpdate
  by_cases h : (c.id == cid) = true
  · rw [if_pos h]; exact hg c
  · rw [if_neg h]

/-- `idUpdate` applies `g` at a descriptor whose id matches. -/
theorem idUpdate_at (cid : Nat) (g : ClassDesc → ClassDesc) (c : ClassDesc)
    (h : (c.id == cid) = true) : idUpdate cid g c = g c := by
  unfold idUpdate; rw [if_pos h]

theorem idUpdateF_id (fid : Nat) (g : FuncDesc → FuncDesc)
    (hg : ∀ f, (g f).id = f.id) (f : FuncDesc) :
    (idUpdateF fid g f).id = f.id := by
  unfold idUpdateF
  by_cases h : (f.id == fid) = true
  · rw [if_pos h]; exact hg f
  · rw [if_neg h]

theorem idUpdateF_name (fid : Nat) (g : FuncDesc → FuncDesc)
    (hg : ∀ f, (g f).name = f.name) (f : FuncDesc) :
    (idUpdateF fid g f).name = f.name := by
  unfold idUpdateF
  by_cases h : (f.id == fid) = true
  · rw [if_pos h]; exact hg f
  · rw [if_neg h]

/-- The class store after `updateClass`, as a map. -/
theorem updateClass_classes (r : Registry) (cid : Nat) (f : ClassDesc → ClassDesc) :
    (updateClass r cid f).classes = r.classes.map (idUpdate cid f) := rfl

/-- The function store after `updateFunc`, as a map. -/
theorem updateFunc_funcs (r : Registry) (fid : Nat) (g : FuncDesc → FuncDesc) :
    (updateFunc r fid g).funcs = r.funcs.map (idUpdateF fid g) := rfl

/-- Second create-class call with the same name: returns the same handle as
the first call and leaves the class store's size unchanged, with or without
a finalize in between. -/
theorem createClass_second_call (r : Registry) (name : String)
    (pid tid tid2 : Nat) (fin : Bool) :
    (CreateClassImpl (maybeFinalize fin (CreateClassImpl r name (some pid) tid).2
        (CreateClassImpl r name (some pid) tid).1) name (some pid) tid2).1
      = (CreateClassImpl r name (some pid) tid).1 ∧
    (CreateClassImpl (maybeFinalize fin (CreateClassImpl r name (some pid) tid).2
        (CreateClassImpl r name (some pid) tid).1) name (some pid) tid2).2.classes.length
      = (maybeFinalize fin (CreateClassImpl r name (some pid) tid).2
          (CreateClassImpl r name (some pid) tid).1).classes.length := by
  cases hfind : findClassByName r name with
  | some c =>
    have hfst : CreateClassImpl r name (some pid) tid
        = (some c.id, updateClass r c.id (tagUpdate tid)) := by
      simp only [CreateClassImpl, hfind]
      rfl
    rw [hfst]
    obtain ⟨g, hg, hgname, hgid, _, _⟩ := maybeFinalize_classes_map fin
      (some c.id, updateClass r c.id (tagUpdate tid)).2
      (some c.id, updateClass r c.id (tagUpdate tid)).1
    have h1 : findClassByName (updateClass r c.id (tagUpdate tid)) name
        = some (idUpdate c.id (tagUpdate tid) c) := by
      rw [findClassByName_map_state r name _ (idUpdate c.id (tagUpdate tid))
          (updateClass_classes r c.id (tagUpdate tid))
          (idUpdate_name c.id (tagUpdate tid) (fun _ => rfl)),
        hfind, Option.map_some']
    have h2 : findClassByName (maybeFinalize fin
        (some c.id, updateClass r c.id (tagUpdate tid)).2
        (some c.id, updateClass r c.id (tagUpdate tid)).1) name
        = some (g (idUpdate c.id (tagUpdate tid) c)) := by
      rw [findClassByName_map_state (updateClass r c.id (tagUpdate tid)) name _ g hg
          hgname, h1, Option.map_some']
    have hid2 : (g (idUpdate c.id (tagUpdate tid) c)).id = c.id := by
      rw [hgid, idUpdate_at c.id (tagUpdate tid) c (beq_self_eq_true c.id)]
      rfl
    constructor
    · simp only [CreateClassImpl, h2, hid2]
    · simp only [CreateClassImpl, h2]
      rw [updateClass_classes]
      exact List.length_map _ _
  | none =>
    have hfst : CreateClassImpl r name (some pid) tid
        = (some r.nextId,
           { r with
               nextId := r.nextId + 1,
               classes := r.classes ++ [newClassDesc r.nextId name pid tid] }) := by
      simp only [CreateClassImpl, hfind]
      rfl
    rw [hfst]
    obtain ⟨g, hg, hgname, hgid, _, _⟩ := maybeFinalize_classes_map fin
      (some r.nextId,
        ({ r with
            nextId := r.nextId + 1,
            classes := r.classes ++ [newClassDesc r.nextId name pid tid] } : Registry)).2
      (some r.nextId,
        ({ r with
            nextId := r.nextId + 1,
            classes := r.classes ++ [newClassDesc r.nextId name pid tid] } : Registry)).1
    have h2 : findClassByName (maybeFinalize fin
        (some r.nextId,
          ({ r with
              nextId := r.nextId + 1,
              classes := r.classes ++ [newClassDesc r.nextId name pid tid] } : Registry)).2
        (some r.nextId,
          ({ r with
              nextId := r.nextId + 1,
              classes := r.classes ++ [newClassDesc r.nextId name pid tid] } : Registry)).1) name
        = some (g (newClassDesc r.nextId name pid tid)) := by
      unfold findClassByName
      rw [show ((some r.nextId,
          ({ r with
              nextId := r.nextId + 1,
              classes := r.classes ++ [newClassDesc r.nextId name pid tid] } : Registry)).2).classes
          = r.classes ++ [newClassDesc r.nextId name pid tid] from rfl] at hg
      rw [hg, List.map_append, List.find?_append,
        find?_map_invar _ g _ (fun a => by
          show ((g a).name == name) = (a.name == name)
          rw [hgname])]
      unfold findClassByName at hfind
      rw [hfind, Option.map_none', Option.none_or, List.map_cons, List.map_nil,
        List.find?_cons_of_pos _ (by
          show ((g (newClassDesc r.nextId name pid tid)).name == name) = true
          rw [hgname]
          exact beq_self_eq_true name)]
    have hid2 : (g (newClassDesc r.nextId name pid tid)).id = r.nextId := by
      rw [hgid]
      rfl
    constructor
    · simp only [CreateClassImpl, h2, hid2]
    · simp only [CreateClassImpl, h2]
      rw [updateClass_classes]
      exact List.length_map _ _


/-- AddFunctionImpl when the name scan finds an existing function: update
its callback id in place and return it. -/
theorem addFunction_found (rX : Registry) (cid : Nat) (cX : ClassDesc)
    (n : String) (cb2 fl2 : Nat) (fid : Nat)
    (hcls : findClass rX cid = some cX)
    (hfd : cX.functionIds.find? (funcNameMatches rX n) = some fid) :
    AddFunctionImpl rX (some cid) n cb2 fl2
      = (some fid, updateFunc rX fid (setCallback cb2)) := by
  simp only [AddFunctionImpl, hcls, hfd]
  rfl

/-- Second add-function call with the same name and class: returns the
function created (or updated) by the first call, without creating another
descriptor or touching the class, with or without a finalize in between. -/
theorem addFunction_second_call (r : Registry) (cid : Nat) (n : String)
    (cb fl cb2 fl2 : Nat) (fid : Nat) (r1 : Registry) (fin : Bool)
    (hfresh : ∀ f ∈ r.funcs, f.id < r.nextId)
    (hfst : AddFunctionImpl r (some cid) n cb fl = (some fid, r1)) :
    (AddFunctionImpl (maybeFinalize fin r1 (some cid)) (some cid) n cb2 fl2).1
      = some fid ∧
    (AddFunctionImpl (maybeFinalize fin r1 (some cid)) (some cid) n cb2 fl2).2.funcs.length
      = (maybeFinalize fin r1 (some cid)).funcs.length ∧
    (AddFunctionImpl (maybeFinalize fin r1 (some cid)) (some cid) n cb2 fl2).2.classes
      = (maybeFinalize fin r1 (some cid)).classes := by
  cases hc : findClass r cid with
  | none =>
      simp only [AddFunctionImpl, hc] at hfst
      exact Option.noConfusion (congrArg Prod.fst hfst)
  | some c =>
    cases hff : c.functionIds.find? (funcNameMatches r n) with
    | some fid0 =>
      have hstep : AddFunctionImpl r (some cid) n cb fl
          = (some fid0, updateFunc r fid0 (setCallback cb)) := by
        simp only [AddFunctionImpl, hc, hff]
        rfl
      rw [hstep] at hfst
      have hfid : fid0 = fid := Option.some.inj (congrArg Prod.fst hfst)
      subst hfid
      have hr1 : r1 = updateFunc r fid0 (setCallback cb) :=
        (congrArg Prod.snd hfst).symm
      subst hr1
      obtain ⟨g, hg, hgname, hgid, hgfn, _⟩ := maybeFinalize_classes_map fin
        (updateFunc r fid0 (setCallback cb)) (some cid)
      have hcls2 : findClass (maybeFinalize fin (updateFunc r fid0 (setCallback cb))
          (some cid)) cid = some (g c) :=
        findClass_map_state r cid c hc _ g (by rw [hg]; rfl) hgid
      have hpred : ∀ a, funcNameMatches (maybeFinalize fin
          (updateFunc r fid0 (setCallback cb)) (some cid)) n a
          = funcNameMatches r n a := by
        intro a
        have hfuncs : (maybeFinalize fin (updateFunc r fid0 (setCallback cb))
            (some cid)).funcs = r.funcs.map (idUpdateF fid0 (setCallback cb)) := by
          rw [(maybeFinalize_preserves fin _ (some cid)).1, updateFunc_funcs]
        exact funcNameMatches_map_funcs r _ (idUpdateF fid0 (setCallback cb)) hfuncs
          (idUpdateF_id _ _ (fun _ => rfl)) (idUpdateF_name _ _ (fun _ => rfl)) n a
      have hfd2 : (g c).functionIds.find? (funcNameMatches (maybeFinalize fin
          (updateFunc r fid0 (setCallback cb)) (some cid)) n) = some fid0 := by
        rw [hgfn c, find?_congr_pred _ (funcNameMatches r n) _ (fun a _ => hpred a),
          hff]
      rw [addFunction_found _ cid (g c) n cb2 fl2 fid0 hcls2 hfd2]
      refine ⟨rfl, ?_, rfl⟩
      rw [updateFunc_funcs]
      exact List.length_map _ _
    | none =>
      have hstep : AddFunctionImpl r (some cid) n cb fl
          = (some r.nextId,
             updateClass
               { r with
                   nextId := r.nextId + 1,
                   funcs := r.funcs ++ [newFuncDesc r.nextId cid n cb fl] }
               cid (addFuncId r.nextId)) := by
        simp only [AddFunctionImpl, hc, hff]
        rfl
      rw [hstep] at hfst
      have hfid : r.nextId = fid := Option.some.inj (congrArg Prod.fst hfst)
      have hr1 : r1 = updateClass
          { r with
              nextId := r.nextId + 1,
              funcs := r.funcs ++ [newFuncDesc r.nextId cid n cb fl] }
          cid (addFuncId r.nextId) :=
        (congrArg Prod.snd hfst).symm
      subst hr1
      subst hfid
      obtain ⟨g, hg, hgname, hgid, hgfn, _⟩ := maybeFinalize_classes_map fin
        (updateClass
          { r with
              nextId := r.nextId + 1,
              funcs := r.funcs ++ [newFuncDesc r.nextId cid n cb fl] }
          cid (addFuncId r.nextId)) (some cid)
      have hmid : findClass (updateClass
          { r with
              nextId := r.nextId + 1,
              funcs := r.funcs ++ [newFuncDesc r.nextId cid n cb fl] }
          cid (addFuncId r.nextId)) cid
          = some (idUpdate cid (addFuncId r.nextId) c) :=
        findClass_map_state r cid c hc _ (idUpdate cid (addFuncId r.nextId))
          (updateClass_classes _ cid _) (idUpdate_id cid _ (fun _ => rfl))
      have hcls2 : findClass (maybeFinalize fin (updateClass
          { r with
              nextId := r.nextId + 1,
              funcs := r.funcs ++ [newFuncDesc r.nextId cid n cb fl] }
          cid (addFuncId r.nextId)) (some cid)) cid
          = some (g (idUpdate cid (addFuncId r.nextId) c)) :=
        findClass_map_state _ cid _ hmid _ g (by rw [hg]) hgid
      have hfn : (g (idUpdate cid (addFuncId r.nextId) c)).functionIds
          = r.nextId :: c.functionIds := by
        rw [hgfn, idUpdate_at cid _ c
          (List.find?_some (p := fun (x : ClassDesc) => x.id == cid) hc)]
        rfl
      have hhead : funcNameMatches (maybeFinalize fin (updateClass
          { r with
              nextId := r.nextId + 1,
              funcs := r.funcs ++ [newFuncDesc r.nextId cid n cb fl] }
          cid (addFuncId r.nextId)) (some cid)) n r.nextId = true := by
        unfold funcNameMatches findFunc
        have hfuncs : (maybeFinalize fin (updateClass
            { r with
                nextId := r.nextId + 1,
                funcs := r.funcs ++ [newFuncDesc r.nextId cid n cb fl] }
            cid (addFuncId r.nextId)) (some cid)).funcs
            = r.funcs ++ [newFuncDesc r.nextId cid n cb fl] := by
          rw [(maybeFinalize_preserves fin _ (some cid)).1]
          rfl
        rw [hfuncs, List.find?_append, List.find?_eq_none.mpr (fun f hf => by
            intro hbeq
            have hfe : f.id = r.nextId := eq_of_beq hbeq
            exact absurd hfe (Nat.ne_of_lt (hfresh f hf))),
          Option.none_or,
          List.find?_cons_of_pos _ (by
            show ((newFuncDesc r.nextId cid n cb fl).id == r.nextId) = true
            exact beq_self_eq_true _)]
        show ((newFuncDesc r.nextId cid n cb fl).name == n) = true
        exact beq_self_eq_true n
      have hfd2 : (g (idUpdate cid (addFuncId r.nextId) c)).functionIds.find?
          (funcNameMatches (maybeFinalize fin (updateClass
            { r with
                nextId := r.nextId + 1,
                funcs := r.funcs ++ [newFuncDesc r.nextId cid n cb fl] }
            cid (addFuncId r.nextId)) (some cid)) n) = some r.nextId := by
        rw [hfn, List.find?_cons_of_pos _ hhead]
      rw [addFunction_found _ cid _ n cb2 fl2 r.nextId hcls2 hfd2]
      refine ⟨rfl, ?_, rfl⟩
      rw [updateFunc_funcs]
      exact List.length_map _ _

/-- Second add-property call with the same name and owner, with the owning
type finalized between the two calls: the linked chain now contains the
property created by the first call, so the second call returns it and
attaches nothing. -/
theorem addProperty_after_finalize (r : Registry) (cid : Nat) (c : ClassDesc)
    (n : String) (ty ty2 : EUikaReifyPropType) (fl fl2 : Nat)
    (ex ex2 : Option FUikaReifyPropExtra) (pid : Nat) (r1 : Registry)
    (hfreshp : ∀ p ∈ r.props, p.1 < r.nextId)
    (hc : findClass r cid = some c)
    (hlink : c.propertyLink = [])
    (hcon : c.constructed = false)
    (hfst : AddPropertyImpl r (some cid) n ty fl ex = (some pid, r1)) :
    AddPropertyImpl ((FinalizeClassImpl r1 (some cid)).2) (some cid) n ty2 fl2 ex2
      = (some pid, (FinalizeClassImpl r1 (some cid)).2) := by
  cases hcr : CreatePropertyByType cid n ty ex with
  | none =>
      simp only [AddPropertyImpl, hc, hlink, hcr, List.find?_nil] at hfst
      exact Option.noConfusion (congrArg Prod.fst hfst)
  | some pd =>
      have hpd := createProp_eq cid n ty ex pd hcr
      subst hpd
      have hstep : AddPropertyImpl r (some cid) n ty fl ex
          = (some r.nextId,
             updateClass
               { r with
                   nextId := r.nextId + 1,
                   props := r.props ++
                     [(r.nextId,
                       { owner := cid, name := n, propType := ty,
                         propFlags := Nat.lor 0 fl })] }
               cid (addChildProp r.nextId)) := by
        simp only [AddPropertyImpl, hc, hlink, hcr, List.find?_nil]
        rfl
      rw [hstep] at hfst
      have hfid : r.nextId = pid := Option.some.inj (congrArg Prod.fst hfst)
      have hr1 : r1 = updateClass
          { r with
              nextId := r.nextId + 1,
              props := r.props ++
                [(r.nextId,
                  { owner := cid, name := n, propType := ty,
                    propFlags := Nat.lor 0 fl })] }
          cid (addChildProp r.nextId) :=
        (congrArg Prod.snd hfst).symm
      subst hr1
      subst hfid
      have hcc : (c.id == cid) = true :=
        List.find?_some (p := fun (x : ClassDesc) => x.id == cid) hc
      have hc1 : findClass (updateClass
          { r with
              nextId := r.nextId + 1,
              props := r.props ++
                [(r.nextId,
                  { owner := cid, name := n, propType := ty,
                    propFlags := Nat.lor 0 fl })] }
          cid (addChildProp r.nextId)) cid
          = some (idUpdate cid (addChildProp r.nextId) c) :=
        findClass_map_state r cid c hc _ (idUpdate cid (addChildProp r.nextId))
          (updateClass_classes _ cid _) (idUpdate_id cid _ (fun _ => rfl))
      have hc1con : (idUpdate cid (addChildProp r.nextId) c).constructed = false := by
        rw [idUpdate_at cid _ c hcc]
        exact hcon
      have hfin : (FinalizeClassImpl (updateClass
          { r with
              nextId := r.nextId + 1,
              props := r.props ++
                [(r.nextId,
                  { owner := cid, name := n, propType := ty,
                    propFlags := Nat.lor 0 fl })] }
          cid (addChildProp r.nextId)) (some cid)).2
          = updateClass (updateClass
              { r with
                  nextId := r.nextId + 1,
                  props := r.props ++
                    [(r.nextId,
                      { owner := cid, name := n, propType := ty,
                        propFlags := Nat.lor 0 fl })] }
              cid (addChildProp r.nextId)) cid linkUpdate := by
        simp only [FinalizeClassImpl, hc1, hc1con, Bool.false_eq_true, if_false]
        rfl
      rw [hfin]
      have hc2 : findClass (updateClass (updateClass
          { r with
              nextId := r.nextId + 1,
              props := r.props ++
                [(r.nextId,
                  { owner := cid, name := n, propType := ty,
                    propFlags := Nat.lor 0 fl })] }
          cid (addChildProp r.nextId)) cid linkUpdate) cid
          = some (idUpdate cid linkUpdate (idUpdate cid (addChildProp r.nextId) c)) :=
        findClass_map_state _ cid _ hc1 _ (idUpdate cid linkUpdate)
          (updateClass_classes _ cid _) (idUpdate_id cid _ (fun _ => rfl))
      have hcc2 : ((addChildProp r.nextId c).id == cid) = true := hcc
      have hplink : (idUpdate cid linkUpdate
          (idUpdate cid (addChildProp r.nextId) c)).propertyLink
          = r.nextId :: c.childPropIds := by
        rw [idUpdate_at cid (addChildProp r.nextId) c hcc,
          idUpdate_at cid linkUpdate _ hcc2]
        rfl
      have hhead : propOwnedNameMatches (updateClass (updateClass
          { r with
              nextId := r.nextId + 1,
              props := r.props ++
                [(r.nextId,
                  { owner := cid, name := n, propType := ty,
                    propFlags := Nat.lor 0 fl })] }
          cid (addChildProp r.nextId)) cid linkUpdate) cid n r.nextId = true := by
        unfold propOwnedNameMatches findProp
        rw [show (updateClass (updateClass
            { r with
                nextId := r.nextId + 1,
                props := r.props ++
                  [(r.nextId,
                    { owner := cid, name := n, propType := ty,
                      propFlags := Nat.lor 0 fl })] }
            cid (addChildProp r.nextId)) cid linkUpdate).props
            = r.props ++
              [(r.nextId,
                ({ owner := cid, name := n, propType := ty,
                   propFlags := Nat.lor 0 fl } : PropDesc))] from rfl]
        rw [List.find?_append, List.find?_eq_none.mpr (fun q hq => by
            intro hbeq
            have hqe : q.1 = r.nextId := eq_of_beq hbeq
            exact absurd hqe (Nat.ne_of_lt (hfreshp q hq))),
          Option.none_or,
          List.find?_cons_of_pos _ (by
            show ((r.nextId : Nat) == r.nextId) = true
            exact beq_self_eq_true _),
          Option.map_some']
        show ((cid == cid) && (n == n)) = true
        rw [beq_self_eq_true, beq_self_eq_true]
        rfl
      simp only [AddPropertyImpl, hc2, hplink, List.find?_cons_of_pos _ hhead]

/-- C1 counterexample: with the owning type NOT finalized between the two
calls, a second add-field call with the same name and owner does not
return the first call's descriptor — it creates and attaches a second one
(the duplicate scan walks the linked property chain, which is empty before
the class is linked). -/
theorem c1_add_property_unfinalized_counterexample :
    (AddPropertyImpl exReg1 (some 1) "Health" EUikaReifyPropType.int32 0 none).1
      = some 2 ∧
    (AddPropertyImpl exReg2 (some 1) "Health" EUikaReifyPropType.int32 0 none).1
      = some 3 ∧
    (2 : Nat) ≠ 3 ∧
    exReg2.props.length = 1 ∧
    (AddPropertyImpl exReg2 (some 1) "Health" EUikaReifyPropType.int32 0
      none).2.props.length = 2 := by
  decide

/-- C1 amended: create-type and add-method are idempotent as claimed — the
second call with the same name and owner returns the very descriptor the
first call returned and does not create or attach a second one, with or
without a finalize in between.  Add-field is idempotent only when the
owning type is finalized between the two calls (its duplicate scan walks
the linked property chain, built at finalize); without that, a second add
attaches a duplicate (see the counterexample). -/
theorem c1_registration_idempotent_by_name :
    (∀ (r : Registry) (name : String) (pid tid tid2 : Nat) (fin : Bool),
      (CreateClassImpl (maybeFinalize fin (CreateClassImpl r name (some pid) tid).2
          (CreateClassImpl r name (some pid) tid).1) name (some pid) tid2).1
        = (CreateClassImpl r name (some pid) tid).1 ∧
      (CreateClassImpl (maybeFinalize fin (CreateClassImpl r name (some pid) tid).2
          (CreateClassImpl r name (some pid) tid).1) name (some pid) tid2).2.classes.length
        = (maybeFinalize fin (CreateClassImpl r name (some pid) tid).2
            (CreateClassImpl r name (some pid) tid).1).classes.length) ∧
    (∀ (r : Registry) (cid : Nat) (n : String) (cb fl cb2 fl2 : Nat)
      (fid : Nat) (r1 : Registry) (fin : Bool),
      (∀ f ∈ r.funcs, f.id < r.nextId) →
      AddFunctionImpl r (some cid) n cb fl = (some fid, r1) →
      (AddFunctionImpl (maybeFinalize fin r1 (some cid)) (some cid) n cb2 fl2).1
        = some fid ∧
      (AddFunctionImpl (maybeFinalize fin r1 (some cid)) (some cid) n cb2 fl2).2.funcs.length
        = (maybeFinalize fin r1 (some cid)).funcs.length ∧
      (AddFunctionImpl (maybeFinalize fin r1 (some cid)) (some cid) n cb2 fl2).2.classes
        = (maybeFinalize fin r1 (some cid)).classes) ∧
    (∀ (r : Registry) (cid : Nat) (c : ClassDesc) (n : String)
      (ty ty2 : EUikaReifyPropType) (fl fl2 : Nat)
      (ex ex2 : Option FUikaReifyPropExtra) (pid : Nat) (r1 : Registry),
      (∀ p ∈ r.props, p.1 < r.nextId) →
      findClass r cid = some c →
      c.propertyLink = [] →
      c.constructed = false →
      AddPropertyImpl r (some cid) n ty fl ex = (some pid, r1) →
      AddPropertyImpl ((FinalizeClassImpl r1 (some cid)).2) (some cid) n ty2 fl2 ex2
        = (some pid, (FinalizeClassImpl r1 (some cid)).2)) :=
  ⟨createClass_second_call, addFunction_second_call, addProperty_after_finalize⟩

/-- C1 amended, witness. -/
theorem c1_registration_idempotent_by_name_witness :
    ((CreateClassImpl (maybeFinalize true (CreateClassImpl exReg0 "Foo" (some 0) 42).2
        (CreateClassImpl exReg0 "Foo" (some 0) 42).1) "Foo" (some 0) 43).1
      = (CreateClassImpl exReg0 "Foo" (some 0) 42).1 ∧
     (CreateClassImpl (maybeFinalize true (CreateClassImpl exReg0 "Foo" (some 0) 42).2
        (CreateClassImpl exReg0 "Foo" (some 0) 42).1) "Foo" (some 0) 43).2.classes.length
      = (maybeFinalize true (CreateClassImpl exReg0 "Foo" (some 0) 42).2
          (CreateClassImpl exReg0 "Foo" (some 0) 42).1).classes.length) ∧
    ((AddFunctionImpl (maybeFinalize true (AddFunctionImpl exReg1 (some 1) "F" 7 0).2
        (some 1)) (some 1) "F" 8 0).1 = some 2 ∧
     (AddFunctionImpl (maybeFinalize true (AddFunctionImpl exReg1 (some 1) "F" 7 0).2
        (some 1)) (some 1) "F" 8 0).2.funcs.length
      = (maybeFinalize true (AddFunctionImpl exReg1 (some 1) "F" 7 0).2
          (some 1)).funcs.length ∧
     (AddFunctionImpl (maybeFinalize true (AddFunctionImpl exReg1 (some 1) "F" 7 0).2
        (some 1)) (some 1) "F" 8 0).2.classes
      = (maybeFinalize true (AddFunctionImpl exReg1 (some 1) "F" 7 0).2
          (some 1)).classes) ∧
    (AddPropertyImpl ((FinalizeClassImpl
        (AddPropertyImpl exReg1 (some 1) "Health" EUikaReifyPropType.int32 0 none).2
        (some 1)).2) (some 1) "Health" EUikaReifyPropType.int32 0 none
      = (some 2,
         (FinalizeClassImpl
           (AddPropertyImpl exReg1 (some 1) "Health" EUikaReifyPropType.int32 0 none).2
           (some 1)).2)) :=
  ⟨c1_registration_idempotent_by_name.1 exReg0 "Foo" 0 42 43 true,
   c1_registration_idempotent_by_name.2.1 exReg1 1 "F" 7 0 8 0 2
     (AddFunctionImpl exReg1 (some 1) "F" 7 0).2 true (by decide) rfl,
   c1_registration_idempotent_by_name.2.2 exReg1 1
     { id := 1, name := "Foo", parentId := 0, rustTypeId := 42,
       childPropIds := [], propertyLink := [], functionIds := [],
       constructed := false }
     "Health" EUikaReifyPropType.int32 EUikaReifyPropType.int32 0 0 none none 2
     (AddPropertyImpl exReg1 (some 1) "Health" EUikaReifyPropType.int32 0 none).2
     (by decide) (by decide) rfl rfl rfl⟩

/-- C5 witness. -/
theorem c5_parameter_chain_order_witness :
    ((runParams exRegF 1 exSpecs).1
        = exSpecs.map (fun _ => EUikaErrorCode.Ok) ∧
     (findFunc (runParams exRegF 1 exSpecs).2 1).map
         (fun g => g.childProperties.map (fun p => p.name))
       = some (exF.childProperties.map (fun p => p.name)
           ++ exSpecs.map (fun s => s.1))) ∧
    AddFunctionParamImpl exRegF2 (some 1) "A" EUikaReifyPropType.boolTy 0 none
      = (EUikaErrorCode.Ok, exRegF2) :=
  ⟨c5_parameter_chain_order.1 exSpecs exRegF 1 exF rfl (by decide) (by decide)
      (by decide),
   c5_parameter_chain_order.2 exRegF2 1 exF2 "A" EUikaReifyPropType.boolTy 0 none
      rfl ⟨⟨1, "A", EUikaReifyPropType.int32, 0⟩, by decide, rfl⟩⟩

end Uika
